import Mathlib

/-!
# Serien-Tracker: catalog store and report pagination

A shallow embedding of `main.go`: the global catalog (`seriesDB`, `nextID`), the
store logic of the HTTP handlers (`addHandler`, `updateHandler`, `deleteHandler`),
the read path (`getAllSeries`, `calculateStats`), the start-up passes
(`loadSeries`, `updateMissingCovers`) and the page-break loop of `pdfHandler`. The
metadata lookup and the page-break test of the gofpdf library are parameters.

Go's `int` is modelled as a mathematical integer together with the explicit
two's-complement wrap-around of a 64-bit target (`wrapInt`); the arithmetic of the
source on ids, episode counts and `countOnPage` goes through `goAdd`, `goMul` and
`goDiv`. The two counters of `calculateStats` never exceed the length of a slice and
are natural numbers.
-/

namespace SerienTracker

/-! ## Machine integers -/

/-- Largest value of Go's `int` on a 64-bit target. -/
def maxInt : Int := 9223372036854775807

/-- Smallest value of Go's `int` on a 64-bit target. -/
def minInt : Int := -9223372036854775808

/-- Two's-complement wrap-around of a mathematical integer into the `int` range. -/
def wrapInt (x : Int) : Int := (x + 9223372036854775808) % 18446744073709551616 - 9223372036854775808

/-- Go's `a + b` on `int`. -/
def goAdd (a b : Int) : Int := wrapInt (a + b)

/-- Go's `a * b` on `int`. -/
def goMul (a b : Int) : Int := wrapInt (a * b)

/-- Go's `a / b` on `int` for `b ≠ 0`: the quotient truncated towards zero. -/
def goDiv (a b : Int) : Int := wrapInt (Int.tdiv a b)

/-! ## Data model -/

/-- The `Series` struct. -/
structure Series where
  ID : Int
  Title : String
  Year : String
  IMDBID : String
  EpisodesWatched : Int
  TotalEpisodes : Int
  Status : String
  Progress : Int
  CoverURL : String
deriving DecidableEq, Repr

/-- The `OMDbResponse` struct. -/
structure OMDbResponse where
  Title : String
  Year : String
  TotalSeasons : String
  IMDBID : String
  Response : String
  Error : String
  Poster : String
deriving DecidableEq, Repr

/-- The process-wide variables `seriesDB` and `nextID`, and the number of calls of
`saveSeries` so far. -/
structure Store where
  seriesDB : List Series
  nextID : Int
  saves : Nat
deriving DecidableEq, Repr

/-- What `os.ReadFile` followed by `json.Unmarshal` delivers to `loadSeries`. -/
inductive Snapshot where
  | missing
  | malformed
  | parsed (records : List Series)
deriving DecidableEq, Repr

/-- The observable outcome of a handler. -/
inductive Response where
  | redirect
  | notFound
  | duplicate
  | added (id : Int)
deriving DecidableEq, Repr

/-! ## `strconv.Atoi` -/

/-- The value of a decimal digit, `none` for any other character. -/
def digitVal (c : Char) : Option Nat :=
  if 48 ≤ c.toNat ∧ c.toNat ≤ 57 then some (c.toNat - 48) else none

/-- Accumulate a run of decimal digits; `none` on the first non-digit. -/
def parseDigits : List Char → Nat → Option Nat
  | [], acc => some acc
  | c :: cs, acc =>
    match digitVal c with
    | none => none
    | some d => parseDigits cs (acc * 10 + d)

/-- The function `strconv.Atoi` with `err == nil` read as `some`: an optional sign,
at least one decimal digit, and a value inside the `int` range. -/
def atoi (s : String) : Option Int :=
  match s.data with
  | [] => none
  | c :: cs =>
    if c = '-' then
      if cs = [] then none
      else match parseDigits cs 0 with
        | none => none
        | some n => if -(n : Int) < minInt then none else some (-(n : Int))
    else if c = '+' then
      if cs = [] then none
      else match parseDigits cs 0 with
        | none => none
        | some n => if maxInt < (n : Int) then none else some (n : Int)
    else match parseDigits (c :: cs) 0 with
      | none => none
      | some n => if maxInt < (n : Int) then none else some (n : Int)

/-! ## Persistence -/

/-- The body of the `for` loop of `loadSeries`, acting on `nextID`. -/
def loadStep (next : Int) (s : Series) : Int :=
  if s.ID ≥ next then goAdd s.ID 1 else next

/-- The function `loadSeries`, run on the initial globals (`nextID = 1`). -/
def loadSeries : Snapshot → Store
  | Snapshot.missing => { seriesDB := [], nextID := 1, saves := 0 }
  | Snapshot.malformed => { seriesDB := [], nextID := 1, saves := 0 }
  | Snapshot.parsed records =>
    { seriesDB := records, nextID := records.foldl loadStep 1, saves := 0 }

/-- The function `saveSeries`: one attempt to overwrite the snapshot file with the
whole catalog; the catalog itself is not touched. -/
def saveSeries (st : Store) : Store := { st with saves := st.saves + 1 }

/-! ## Read path -/

/-- The body of the loop of `getAllSeries` on the loop variable `s`. -/
def withProgress (s : Series) : Series :=
  let s0 := { s with Progress := 0 }
  if s0.TotalEpisodes > 0 then
    { s0 with Progress := goDiv (goMul s0.EpisodesWatched 100) s0.TotalEpisodes }
  else s0

/-- The zero value of `Series`, which `make([]Series, n)` fills the result with. -/
def zeroSeries : Series :=
  { ID := 0, Title := "", Year := "", IMDBID := "", EpisodesWatched := 0,
    TotalEpisodes := 0, Status := "", Progress := 0, CoverURL := "" }

/-- The loop `for i, s := range seriesDB` of `getAllSeries`, from index `i` on. -/
def getAllSeriesLoop : Nat → List Series → List Series → List Series
  | _, [], result => result
  | i, s :: rest, result => getAllSeriesLoop (i + 1) rest (result.set i (withProgress s))

/-- The function `getAllSeries`: the store as the call leaves it, and the returned slice. -/
def getAllSeries (st : Store) : Store × List Series :=
  (st, getAllSeriesLoop 0 st.seriesDB (List.replicate st.seriesDB.length zeroSeries))

/-- The function `calculateStats`; both counters are bounded by the slice length. -/
def calculateStats (series : List Series) : Nat × Nat :=
  (series.length, series.foldl (fun totalWatched s => if s.Progress = 100 then totalWatched + 1 else totalWatched) 0)

/-! ## Handlers -/

/-- The duplicate check of `addHandler`: some record already carries this IMDb id. -/
def alreadyExists (imdbID : String) : List Series → Bool
  | [] => false
  | s :: rest => if s.IMDBID = imdbID then true else alreadyExists imdbID rest

/-- The `totalEpisodes` estimate of `addHandler`. -/
def totalEpisodesOf (series : OMDbResponse) : Int :=
  if series.TotalSeasons ≠ "" then
    match atoi series.TotalSeasons with
    | some seasons => goMul seasons 10
    | none => 0
  else 0

/-- The function `addHandler` from the point where `fetchIMDBData` has returned
`series` without error. -/
def addHandler (st : Store) (series : OMDbResponse) : Store × Response :=
  let totalEpisodes := totalEpisodesOf series
  if alreadyExists series.IMDBID st.seriesDB then (st, Response.duplicate)
  else
    let newSeries : Series :=
      { ID := st.nextID, Title := series.Title, Year := series.Year, IMDBID := series.IMDBID,
        EpisodesWatched := 0, TotalEpisodes := totalEpisodes, Status := "Watching",
        Progress := 0, CoverURL := series.Poster }
    (saveSeries { st with seriesDB := st.seriesDB ++ [newSeries], nextID := goAdd st.nextID 1 },
      Response.added newSeries.ID)

/-- The search loop of `updateHandler`: overwrite the first record with this id and
stop; the flag is `found`. -/
def updateLoop (id episodes : Int) : List Series → List Series × Bool
  | [] => ([], false)
  | s :: rest =>
    if s.ID = id then ({ s with EpisodesWatched := episodes } :: rest, true)
    else ((updateLoop id episodes rest).1.cons s, (updateLoop id episodes rest).2)

/-- The function `updateHandler` from the point where both form values have parsed. -/
def updateHandler (st : Store) (id episodes : Int) : Store × Response :=
  let r := updateLoop id episodes st.seriesDB
  let st1 := { st with seriesDB := r.1 }
  if !r.2 then (st1, Response.notFound)
  else (saveSeries st1, Response.redirect)

/-- The function `deleteHandler` from the point where the id has parsed. -/
def deleteHandler (st : Store) (id : Int) : Store × Response :=
  let newSeries := st.seriesDB.foldl (fun acc s => if s.ID ≠ id then acc ++ [s] else acc) []
  (saveSeries { st with seriesDB := newSeries }, Response.redirect)

/-! ## Enrichment -/

/-- The loop of `updateMissingCovers` from index `i` on: `fetchIMDBData` is the
metadata lookup (`none` for `err != nil`), `updated` the flag of the source and
`lookups` the identifiers handed to `fetchIMDBData` so far, in call order. -/
def coverLoop (fetchIMDBData : String → Option OMDbResponse) :
    Nat → List Series → List Series → Bool → List String → List Series × Bool × List String
  | _, [], db, updated, lookups => (db, updated, lookups)
  | i, s :: rest, db, updated, lookups =>
    if s.CoverURL ≠ "" ∧ s.CoverURL ≠ "N/A" then
      coverLoop fetchIMDBData (i + 1) rest db updated lookups
    else if s.IMDBID = "" then
      coverLoop fetchIMDBData (i + 1) rest db updated lookups
    else
      match fetchIMDBData s.IMDBID with
      | none => coverLoop fetchIMDBData (i + 1) rest db updated (lookups ++ [s.IMDBID])
      | some data =>
        if data.Poster ≠ "" ∧ data.Poster ≠ "N/A" then
          coverLoop fetchIMDBData (i + 1) rest (db.set i { s with CoverURL := data.Poster }) true
            (lookups ++ [s.IMDBID])
        else
          coverLoop fetchIMDBData (i + 1) rest db updated (lookups ++ [s.IMDBID])

/-- The function `updateMissingCovers`: the store afterwards and the identifiers
looked up during the pass. -/
def updateMissingCovers (fetchIMDBData : String → Option OMDbResponse) (st : Store) :
    Store × List String :=
  let r := coverLoop fetchIMDBData 0 st.seriesDB st.seriesDB false []
  let st1 := { st with seriesDB := r.1 }
  if r.2.1 then (saveSeries st1, r.2.2) else (st1, r.2.2)

/-! ## Report pagination -/

/-- One page of the generated document: the heading written on it, if any, and the
blocks whose drawing ended on it. Only a page opened by the `pdf.AddPage()` calls of
`pdfHandler` gets a heading; a page opened by the automatic page break of gofpdf has
none. -/
structure Page where
  heading : Option String
  blocks : List Series
deriving DecidableEq, Repr

/-- The call `pdf.AddPage()` of `pdfHandler` with the heading cell that follows it.
A document is the list of its pages, the current page first. -/
def addPage (heading : String) (pdf : List Page) : List Page :=
  { heading := some heading, blocks := [] } :: pdf

/-- The page breaks that gofpdf performs on its own, `n` of them: automatic page
breaks are on after `gofpdf.New` and `pdfHandler` never turns them off, so a text cell
that does not fit the current page opens a fresh page first. -/
def autoPages : Nat → List Page → List Page
  | 0, pdf => pdf
  | n + 1, pdf => autoPages n ({ heading := none, blocks := [] } :: pdf)

/-- The drawing calls of one loop iteration. `autoBreak pdf s` is the number of
automatic page breaks that gofpdf performs while the text cells of the block for `s`
are written to the document `pdf`; it stands for the page-break test of the library,
which depends on the cursor position, the font metrics and the fetched cover. The
block is recorded on the page where its drawing ends. -/
def drawBlock (autoBreak : List Page → Series → Nat) (pdf : List Page) (s : Series) :
    List Page :=
  match autoPages (autoBreak pdf s) pdf with
  | [] => []
  | page :: earlier => { page with blocks := page.blocks ++ [s] } :: earlier

/-- The loop `for _, s := range series` of `pdfHandler` on the document and
`countOnPage`. -/
def pdfLoop (autoBreak : List Page → Series → Nat) :
    List Series → List Page × Int → List Page × Int
  | [], state => state
  | s :: rest, (pdf, countOnPage) =>
    if countOnPage = 4 then
      pdfLoop autoBreak rest
        (drawBlock autoBreak (addPage "Meine Serienliste (Fortsetzung)" pdf) s, goAdd 0 1)
    else pdfLoop autoBreak rest (drawBlock autoBreak pdf s, goAdd countOnPage 1)

/-- The function `pdfHandler`: the pages of the generated document in output order. -/
def pdfHandler (autoBreak : List Page → Series → Nat) (st : Store) : List Page :=
  (pdfLoop autoBreak (getAllSeries st).2 (addPage "Meine Serienliste" [], 0)).1.reverse

/-- The block counts between headings, from the current page backwards: for every
page with a heading, the number of blocks on it and on the pages without heading that
follow it; `pending` is the number of blocks on the pages already passed. -/
def groupsFrom : List Page → Nat → List Nat
  | [], _ => []
  | page :: earlier, pending =>
    if page.heading.isSome then groupsFrom earlier 0 ++ [page.blocks.length + pending]
    else groupsFrom earlier (page.blocks.length + pending)

/-- For a document in output order: per page with a heading, the number of blocks laid
out from that page up to the next page with a heading. -/
def groupCounts (pages : List Page) : List Nat := groupsFrom pages.reverse 0

/-! ## Operation sequences -/

/-- One mutating request to the catalog. -/
inductive Op where
  | add (series : OMDbResponse)
  | update (id episodes : Int)
  | delete (id : Int)
deriving DecidableEq, Repr

/-- Dispatch of one request to its handler. -/
def applyOp (st : Store) : Op → Store × Response
  | Op.add series => addHandler st series
  | Op.update id episodes => updateHandler st id episodes
  | Op.delete id => deleteHandler st id

/-- The store after a sequence of requests. -/
def runOps (st : Store) : List Op → Store
  | [] => st
  | op :: rest => runOps (applyOp st op).1 rest

/-- The ids handed out by the successful adds of a sequence of requests, in order. -/
def assignedIds (st : Store) : List Op → List Int
  | [] => []
  | op :: rest =>
    match (applyOp st op).2 with
    | Response.added id => id :: assignedIds (applyOp st op).1 rest
    | _ => assignedIds (applyOp st op).1 rest

/-- The number of add requests in a sequence. -/
def countAdds : List Op → Nat
  | [] => 0
  | Op.add _ :: rest => countAdds rest + 1
  | _ :: rest => countAdds rest

/-! ## Per-record views of the enrichment pass -/

/-- What one iteration of the loop of `updateMissingCovers` leaves at the index of `s`. -/
def coverOf (fetchIMDBData : String → Option OMDbResponse) (s : Series) : Series :=
  if s.CoverURL ≠ "" ∧ s.CoverURL ≠ "N/A" then s
  else if s.IMDBID = "" then s
  else
    match fetchIMDBData s.IMDBID with
    | none => s
    | some data =>
      if data.Poster ≠ "" ∧ data.Poster ≠ "N/A" then { s with CoverURL := data.Poster } else s

/-- Whether the loop of `updateMissingCovers` reaches the lookup for `s`: the cover is
empty or "N/A" and the IMDb id is not empty. -/
def needsLookup (s : Series) : Bool :=
  decide (¬ (s.CoverURL ≠ "" ∧ s.CoverURL ≠ "N/A") ∧ s.IMDBID ≠ "")

/-! ## The id invariant -/

/-- The id counter is a valid `int`, can still be advanced `adds` times without
leaving the `int` range, and lies above the id of every record of the catalog. -/
def IdsBelowNext (st : Store) (adds : Nat) : Prop :=
  minInt ≤ st.nextID ∧ st.nextID + (adds : Int) ≤ maxInt ∧ ∀ s ∈ st.seriesDB, s.ID < st.nextID

/-- The loop invariant of `pdfHandler`: `m` completed groups of four blocks lie behind
the current heading, `c` blocks have been laid out since it (the value of
`countOnPage`), the current page holds at most `c` blocks and no page more than 4. -/
def PagesInv (pdf : List Page) (m c : Nat) : Prop :=
  c ≤ 4 ∧ (∀ pending, groupsFrom pdf pending = List.replicate m 4 ++ [c + pending]) ∧
    (∃ page earlier, pdf = page :: earlier ∧ page.blocks.length ≤ c) ∧
    ∀ page ∈ pdf, page.blocks.length ≤ 4

/-- The blocks of a document, current page first, in the order they were drawn. -/
def blocksOf (pdf : List Page) : List Series :=
  (pdf.reverse.map fun page => page.blocks).flatten

/-! ## Example inputs -/
/-- The metadata record of the add scenario. -/
def breakingBad : OMDbResponse :=
  { Title := "Breaking Bad", Year := "2008", TotalSeasons := "5", IMDBID := "tt0903747",
    Response := "True", Error := "", Poster := "N/A" }

/-- A second metadata record. -/
def theWire : OMDbResponse :=
  { Title := "The Wire", Year := "2002", TotalSeasons := "5", IMDBID := "tt0306414",
    Response := "True", Error := "", Poster := "N/A" }

/-- A catalog record with the given id, IMDb id and episode counts. -/
def mkSeries (id : Int) (imdbID : String) (watched total : Int) : Series :=
  { ID := id, Title := "", Year := "", IMDBID := imdbID, EpisodesWatched := watched,
    TotalEpisodes := total, Status := "Watching", Progress := 0, CoverURL := "" }

/-- The catalog of a first run: no snapshot file yet. -/
def emptyStore : Store := loadSeries Snapshot.missing

/-- A catalog holding two records. -/
def twoStore : Store :=
  loadSeries (Snapshot.parsed [mkSeries 1 "tt0903747" 3 50, mkSeries 2 "tt0306414" 60 60])

/-- A catalog whose only record has as many episodes watched as it has in total, the
hundredfold of which is beyond the largest `int`. -/
def hugeStore : Store :=
  loadSeries (Snapshot.parsed [mkSeries 1 "tt0903747" 92233720368547759 92233720368547759])

/-- A third metadata record. -/
def sopranos : OMDbResponse :=
  { Title := "The Sopranos", Year := "1999", TotalSeasons := "6", IMDBID := "tt0141842",
    Response := "True", Error := "", Poster := "N/A" }

/-- A snapshot whose only record carries the id just below the largest `int`. -/
def lastIdSnapshot : Snapshot :=
  Snapshot.parsed [mkSeries 9223372036854775806 "tt0903747" 0 50]

/-- A snapshot holding a record with the smallest and one with the largest `int` as id. -/
def extremeIdSnapshot : Snapshot :=
  Snapshot.parsed [mkSeries (-9223372036854775808) "tt0903747" 0 50,
    mkSeries 9223372036854775807 "tt0306414" 0 50]

/-- A request sequence on `twoStore`: a rejected add, a delete, an add, an update of a
missing id, an add. -/
def sampleOps : List Op :=
  [Op.add breakingBad, Op.delete 2, Op.add sopranos, Op.update 9 4, Op.add theWire]

/-- A catalog of nine records. -/
def nineStore : Store :=
  loadSeries (Snapshot.parsed [mkSeries 1 "tt01" 0 10, mkSeries 2 "tt02" 0 10,
    mkSeries 3 "tt03" 0 10, mkSeries 4 "tt04" 0 10, mkSeries 5 "tt05" 0 10,
    mkSeries 6 "tt06" 0 10, mkSeries 7 "tt07" 0 10, mkSeries 8 "tt08" 0 10,
    mkSeries 9 "tt09" 0 10])

/-- A metadata lookup that knows a poster for one IMDb id only. -/
def posterLookup : String → Option OMDbResponse := fun identifier =>
  if identifier = "tt0903747" then
    some { breakingBad with Poster := "https://img.example/bb.jpg" }
  else none

/-- A catalog of four records. -/
def fourStore : Store :=
  loadSeries (Snapshot.parsed [mkSeries 1 "tt01" 0 10, mkSeries 2 "tt02" 0 10,
    mkSeries 3 "tt03" 0 10, mkSeries 4 "tt04" 0 10])

/-- No automatic page break: every block fits the page it is started on. -/
def noAutoBreak : List Page → Series → Nat := fun _ _ => 0

/-- One automatic page break for a block that is started on a page already holding
three blocks, as for covers so tall that a fourth block does not fit. -/
def breakAfterThree : List Page → Series → Nat := fun pdf _ =>
  match pdf with
  | [] => 0
  | page :: _ => if page.blocks.length = 3 then 1 else 0

/-! ## Auxiliary facts about the loops -/

theorem getAllSeriesLoop_eq (l : List Series) :
    ∀ pre res : List Series, res.length = l.length →
      getAllSeriesLoop pre.length l (pre ++ res) = pre ++ l.map withProgress := by
  induction l with
  | nil =>
    intro pre res h
    have : res = [] := List.length_eq_zero.mp h
    simp [getAllSeriesLoop, this]
  | cons s rest ih =>
    intro pre res h
    cases res with
    | nil => simp at h
    | cons r res1 =>
      have hlen : res1.length = rest.length := by simpa using h
      have hset : (pre ++ r :: res1).set pre.length (withProgress s)
          = (pre ++ [withProgress s]) ++ res1 := by
        simp [List.set_append]
      have := ih (pre ++ [withProgress s]) res1 hlen
      simp only [getAllSeriesLoop, hset]
      simpa using this

theorem getAllSeries_eq_map (st : Store) :
    (getAllSeries st).2 = st.seriesDB.map withProgress := by
  have := getAllSeriesLoop_eq st.seriesDB [] (List.replicate st.seriesDB.length zeroSeries) (by simp)
  simpa [getAllSeries] using this

theorem alreadyExists_iff (imdbID : String) (db : List Series) :
    alreadyExists imdbID db = true ↔ ∃ s ∈ db, s.IMDBID = imdbID := by
  induction db with
  | nil => simp [alreadyExists]
  | cons s rest ih =>
    by_cases h : s.IMDBID = imdbID
    · simp [alreadyExists, h]
    · simp [alreadyExists, h, ih]

theorem wrapInt_of_range (x : Int) (h1 : minInt ≤ x) (h2 : x ≤ maxInt) : wrapInt x = x := by
  unfold wrapInt
  unfold minInt at h1
  unfold maxInt at h2
  omega

theorem updateLoop_absent (id episodes : Int) (db : List Series)
    (h : ∀ s ∈ db, s.ID ≠ id) : updateLoop id episodes db = (db, false) := by
  induction db with
  | nil => rfl
  | cons s rest ih =>
    have hs : s.ID ≠ id := h s (by simp)
    have hr := ih (fun x hx => h x (by simp [hx]))
    simp [updateLoop, hs, hr]

theorem updateLoop_present (id episodes : Int) (db : List Series)
    (h : ∃ s ∈ db, s.ID = id) :
    ∃ pre s post, db = pre ++ s :: post ∧ (∀ x ∈ pre, x.ID ≠ id) ∧ s.ID = id ∧
      updateLoop id episodes db = (pre ++ { s with EpisodesWatched := episodes } :: post, true) := by
  induction db with
  | nil => simp at h
  | cons s rest ih =>
    by_cases hs : s.ID = id
    · exact ⟨[], s, rest, by simp, by simp, hs, by simp [updateLoop, hs]⟩
    · have hrest : ∃ x ∈ rest, x.ID = id := by
        obtain ⟨x, hx, hxid⟩ := h
        rcases List.mem_cons.mp hx with rfl | hx
        · exact absurd hxid hs
        · exact ⟨x, hx, hxid⟩
      obtain ⟨pre, t, post, hdb, hpre, ht, hloop⟩ := ih hrest
      refine ⟨s :: pre, t, post, by simp [hdb], ?_, ht, ?_⟩
      · intro x hx
        rcases List.mem_cons.mp hx with rfl | hx
        · exact hs
        · exact hpre x hx
      · simp [updateLoop, hs, hloop]

theorem deleteLoop_eq (id : Int) (l : List Series) :
    ∀ acc : List Series,
      l.foldl (fun acc s => if s.ID ≠ id then acc ++ [s] else acc) acc
        = acc ++ l.filter (fun s => decide (s.ID ≠ id)) := by
  induction l with
  | nil => intro acc; simp
  | cons s rest ih =>
    intro acc
    rw [List.foldl_cons, ih]
    by_cases hs : s.ID = id
    · simp [List.filter_cons, hs]
    · simp [List.filter_cons, hs]

theorem deleteHandler_eq (st : Store) (id : Int) :
    deleteHandler st id
      = (saveSeries { st with seriesDB := st.seriesDB.filter (fun s => decide (s.ID ≠ id)) },
          Response.redirect) := by
  unfold deleteHandler
  rw [deleteLoop_eq]
  rfl

theorem filter_length_of_nodup (id : Int) (db : List Series)
    (hn : (db.map (fun s => s.ID)).Nodup) (h : ∃ s ∈ db, s.ID = id) :
    (db.filter (fun s => decide (s.ID ≠ id))).length + 1 = db.length := by
  induction db with
  | nil => simp at h
  | cons s rest ih =>
    have hn2 : s.ID ∉ rest.map (fun s => s.ID) ∧ (rest.map (fun s => s.ID)).Nodup := by
      simpa using hn
    by_cases hs : s.ID = id
    · have hall : ∀ x ∈ rest, decide (x.ID ≠ id) = true := by
        intro x hx
        have : x.ID ≠ id := by
          intro hxid
          apply hn2.1
          rw [hs, ← hxid]
          exact List.mem_map_of_mem _ hx
        simpa using this
      have hf : rest.filter (fun s => decide (s.ID ≠ id)) = rest := List.filter_eq_self.mpr hall
      rw [List.filter_cons]
      simp only [hs, ne_eq, not_true_eq_false, decide_False, Bool.false_eq_true, if_false]
      rw [← hs] at hf ⊢
      simp only [ne_eq] at hf
      rw [hf]
      simp
    · have hrest : ∃ x ∈ rest, x.ID = id := by
        obtain ⟨x, hx, hxid⟩ := h
        rcases List.mem_cons.mp hx with rfl | hx
        · exact absurd hxid hs
        · exact ⟨x, hx, hxid⟩
      have := ih hn2.2 hrest
      rw [List.filter_cons]
      simp only [ne_eq, hs, not_false_eq_true, decide_True, if_true, List.length_cons]
      simp only [ne_eq] at this
      omega
theorem withProgress_progress (s : Series) :
    (withProgress s).Progress
      = if s.TotalEpisodes > 0 then goDiv (goMul s.EpisodesWatched 100) s.TotalEpisodes
        else 0 := by
  by_cases hte : s.TotalEpisodes > 0
  · simp [withProgress, hte]
  · simp [withProgress, hte]

theorem withProgress_fields (s : Series) :
    (withProgress s).EpisodesWatched = s.EpisodesWatched ∧
      (withProgress s).TotalEpisodes = s.TotalEpisodes ∧ (withProgress s).ID = s.ID := by
  by_cases hte : s.TotalEpisodes > 0
  · simp [withProgress, hte]
  · simp [withProgress, hte]

theorem goProgress_bounds (watched total : Int) (h0 : 0 ≤ watched) (h1 : watched ≤ total)
    (h2 : watched * 100 ≤ maxInt) (hte : 0 < total) :
    0 ≤ goDiv (goMul watched 100) total ∧ goDiv (goMul watched 100) total ≤ 100 := by
  have hmul : goMul watched 100 = watched * 100 := by
    unfold goMul
    apply wrapInt_of_range
    · unfold minInt; omega
    · exact h2
  have hq : Int.tdiv (watched * 100) total = watched * 100 / total :=
    Int.tdiv_eq_ediv (by omega) (by omega)
  have hlo : 0 ≤ watched * 100 / total := Int.ediv_nonneg (by omega) (by omega)
  have hhi : watched * 100 / total ≤ 100 := Int.ediv_le_of_le_mul hte (by omega)
  have hdiv : goDiv (watched * 100) total = watched * 100 / total := by
    unfold goDiv
    rw [hq]
    apply wrapInt_of_range
    · unfold minInt; omega
    · unfold maxInt; omega
  rw [hmul, hdiv]
  exact ⟨hlo, hhi⟩

theorem goProgress_full (n : Int) (h : 0 < n) (h2 : n * 100 ≤ maxInt) :
    goDiv (goMul n 100) n = 100 := by
  have hmul : goMul n 100 = 100 * n := by
    unfold goMul
    rw [wrapInt_of_range _ (by unfold minInt; omega) h2]
    omega
  have hq : Int.tdiv (100 * n) n = 100 := Int.mul_tdiv_cancel 100 (by omega)
  rw [hmul]
  unfold goDiv
  rw [hq]
  rfl

theorem countLoop_eq (l : List Series) :
    ∀ k : Nat,
      l.foldl (fun totalWatched s => if s.Progress = 100 then totalWatched + 1 else totalWatched) k
        = k + (l.filter (fun s => decide (s.Progress = 100))).length := by
  induction l with
  | nil => intro k; simp
  | cons s rest ih =>
    intro k
    rw [List.foldl_cons, ih]
    by_cases hs : s.Progress = 100
    · simp [List.filter_cons, hs]; omega
    · simp [List.filter_cons, hs]

theorem calculateStats_eq (series : List Series) :
    calculateStats series
      = (series.length, (series.filter (fun s => decide (s.Progress = 100))).length) := by
  unfold calculateStats
  rw [countLoop_eq]
  simp
theorem coverLoop_eq (fetchIMDBData : String → Option OMDbResponse) (l : List Series) :
    ∀ (pre : List Series) (updated : Bool) (lookups : List String),
      coverLoop fetchIMDBData pre.length l (pre ++ l) updated lookups
        = (pre ++ l.map (coverOf fetchIMDBData),
            updated || l.any (fun s => decide (coverOf fetchIMDBData s ≠ s)),
            lookups ++ (l.filter needsLookup).map (fun s => s.IMDBID)) := by
  induction l with
  | nil => intro pre updated lookups; simp [coverLoop]
  | cons s rest ih =>
    intro pre updated lookups
    have hstep : ∀ (x : Series) (u : Bool) (lk : List String),
        coverLoop fetchIMDBData (pre.length + 1) rest (pre ++ x :: rest) u lk
          = (pre ++ x :: rest.map (coverOf fetchIMDBData),
              u || rest.any (fun s => decide (coverOf fetchIMDBData s ≠ s)),
              lk ++ (rest.filter needsLookup).map (fun s => s.IMDBID)) := by
      intro x u lk
      have := ih (pre ++ [x]) u lk
      simpa using this
    by_cases hc : s.CoverURL ≠ "" ∧ s.CoverURL ≠ "N/A"
    · have hco : coverOf fetchIMDBData s = s := by simp [coverOf, hc]
      have hn : needsLookup s = false := by simp [needsLookup, hc]
      rw [coverLoop, if_pos hc, hstep]
      simp [hco, List.filter_cons, hn]
    · by_cases hid : s.IMDBID = ""
      · have hco : coverOf fetchIMDBData s = s := by simp [coverOf, hc, hid]
        have hn : needsLookup s = false := by simp [needsLookup, hid]
        rw [coverLoop, if_neg hc, if_pos hid, hstep]
        simp [hco, List.filter_cons, hn]
      · have hn : needsLookup s = true := by
          simp only [needsLookup, decide_eq_true_eq]
          exact ⟨hc, hid⟩
        cases hf : fetchIMDBData s.IMDBID with
        | none =>
          have hco : coverOf fetchIMDBData s = s := by simp [coverOf, hc, hid, hf]
          rw [coverLoop, if_neg hc, if_neg hid]
          simp only [hf]
          rw [hstep]
          simp [hco, List.filter_cons, hn]
        | some data =>
          by_cases hp : data.Poster ≠ "" ∧ data.Poster ≠ "N/A"
          · have hco : coverOf fetchIMDBData s = { s with CoverURL := data.Poster } := by
              simp [coverOf, hc, hid, hf, hp]
            have hne : coverOf fetchIMDBData s ≠ s := by
              rw [hco]
              intro heq
              have hurl : data.Poster = s.CoverURL := congrArg Series.CoverURL heq
              rw [hurl] at hp
              exact hc hp
            have hset : (pre ++ s :: rest).set pre.length { s with CoverURL := data.Poster }
                = pre ++ { s with CoverURL := data.Poster } :: rest := by
              simp [List.set_append]
            rw [coverLoop, if_neg hc, if_neg hid]
            simp only [hf, if_pos hp, hset]
            rw [hstep]
            have hany : (s :: rest).any (fun s => decide (coverOf fetchIMDBData s ≠ s)) = true := by
              simp only [List.any_cons, Bool.or_eq_true, decide_eq_true_eq]
              exact Or.inl hne
            rw [hany, ← hco]
            simp [List.filter_cons, hn]
          · have hco : coverOf fetchIMDBData s = s := by simp [coverOf, hc, hid, hf, hp]
            rw [coverLoop, if_neg hc, if_neg hid]
            simp only [hf, if_neg hp]
            rw [hstep]
            simp [hco, List.filter_cons, hn]
theorem coverOf_ne_iff (fetchIMDBData : String → Option OMDbResponse) (s : Series) :
    coverOf fetchIMDBData s ≠ s ↔
      ((s.CoverURL = "" ∨ s.CoverURL = "N/A") ∧ s.IMDBID ≠ "" ∧
        ∃ data, fetchIMDBData s.IMDBID = some data ∧ data.Poster ≠ "" ∧ data.Poster ≠ "N/A") := by
  by_cases hc : s.CoverURL ≠ "" ∧ s.CoverURL ≠ "N/A"
  · have hco : coverOf fetchIMDBData s = s := by simp [coverOf, hc]
    rw [hco]
    constructor
    · intro h; exact absurd rfl h
    · rintro ⟨h1 | h1, _⟩
      · exact absurd h1 hc.1
      · exact absurd h1 hc.2
  · have hmiss : s.CoverURL = "" ∨ s.CoverURL = "N/A" := by
      by_cases h1 : s.CoverURL = ""
      · exact Or.inl h1
      · by_cases h2 : s.CoverURL = "N/A"
        · exact Or.inr h2
        · exact absurd ⟨h1, h2⟩ hc
    by_cases hid : s.IMDBID = ""
    · have hco : coverOf fetchIMDBData s = s := by simp [coverOf, hc, hid]
      rw [hco]
      constructor
      · intro h; exact absurd rfl h
      · rintro ⟨_, h2, _⟩
        exact absurd hid h2
    · cases hf : fetchIMDBData s.IMDBID with
      | none =>
        have hco : coverOf fetchIMDBData s = s := by simp [coverOf, hc, hid, hf]
        rw [hco]
        constructor
        · intro h; exact absurd rfl h
        · rintro ⟨_, _, data, hd, _⟩
          cases hd
      | some data =>
        by_cases hp : data.Poster ≠ "" ∧ data.Poster ≠ "N/A"
        · have hco : coverOf fetchIMDBData s = { s with CoverURL := data.Poster } := by
            simp [coverOf, hc, hid, hf, hp]
          constructor
          · intro _
            exact ⟨hmiss, hid, data, rfl, hp.1, hp.2⟩
          · intro _
            rw [hco]
            intro heq
            have hurl : data.Poster = s.CoverURL := congrArg Series.CoverURL heq
            rw [hurl] at hp
            exact hc hp
        · have hco : coverOf fetchIMDBData s = s := by simp [coverOf, hc, hid, hf, hp]
          rw [hco]
          constructor
          · intro h; exact absurd rfl h
          · rintro ⟨_, _, d, hd, hd1, hd2⟩
            have : d = data := by
              have := hd
              simp at this
              exact this.symm
            rw [this] at hd1 hd2
            exact absurd ⟨hd1, hd2⟩ hp

theorem coverOf_idem (fetchIMDBData : String → Option OMDbResponse) (s : Series) :
    coverOf fetchIMDBData (coverOf fetchIMDBData s) = coverOf fetchIMDBData s := by
  by_cases hne : coverOf fetchIMDBData s = s
  · rw [hne, hne]
  · obtain ⟨_, hid, data, hf, hp1, hp2⟩ := (coverOf_ne_iff fetchIMDBData s).mp hne
    have hc : ¬ (s.CoverURL ≠ "" ∧ s.CoverURL ≠ "N/A") := by
      intro hc
      apply hne
      simp [coverOf, hc]
    have hco : coverOf fetchIMDBData s = { s with CoverURL := data.Poster } := by
      simp [coverOf, hc, hid, hf, hp1, hp2]
    rw [hco]
    simp [coverOf, hp1, hp2]

theorem any_coverOf_ne (fetchIMDBData : String → Option OMDbResponse) (l : List Series) :
    l.any (fun s => decide (coverOf fetchIMDBData s ≠ s)) = true
      ↔ l.map (coverOf fetchIMDBData) ≠ l := by
  induction l with
  | nil => simp
  | cons s rest ih =>
    simp only [List.any_cons, Bool.or_eq_true, decide_eq_true_eq, List.map_cons, ne_eq,
      List.cons.injEq, not_and]
    rw [ih]
    constructor
    · rintro (h | h)
      · intro h2; exact absurd h2 h
      · intro _; exact h
    · intro h
      by_cases hs : coverOf fetchIMDBData s = s
      · exact Or.inr (h hs)
      · exact Or.inl hs

theorem updateMissingCovers_eq (fetchIMDBData : String → Option OMDbResponse) (st : Store) :
    updateMissingCovers fetchIMDBData st
      = (if st.seriesDB.any (fun s => decide (coverOf fetchIMDBData s ≠ s)) = true then
            saveSeries { st with seriesDB := st.seriesDB.map (coverOf fetchIMDBData) }
          else { st with seriesDB := st.seriesDB.map (coverOf fetchIMDBData) },
          (st.seriesDB.filter needsLookup).map (fun s => s.IMDBID)) := by
  have h := coverLoop_eq fetchIMDBData st.seriesDB [] false []
  simp only [List.length_nil, List.nil_append, Bool.false_or] at h
  unfold updateMissingCovers
  simp only [h]
  split <;> rfl
theorem updateMissingCovers_seriesDB (fetchIMDBData : String → Option OMDbResponse)
    (st : Store) :
    (updateMissingCovers fetchIMDBData st).1.seriesDB
      = st.seriesDB.map (coverOf fetchIMDBData) := by
  rw [updateMissingCovers_eq]
  dsimp only
  split <;> rfl

theorem updateMissingCovers_unchanged (fetchIMDBData : String → Option OMDbResponse)
    (st : Store) (h : st.seriesDB.map (coverOf fetchIMDBData) = st.seriesDB) :
    (updateMissingCovers fetchIMDBData st).1 = st := by
  have hany : ¬ (st.seriesDB.any (fun s => decide (coverOf fetchIMDBData s ≠ s)) = true) := by
    rw [any_coverOf_ne]
    exact fun hne => hne h
  rw [updateMissingCovers_eq]
  dsimp only
  rw [if_neg hany, h]

theorem updateMissingCovers_changed (fetchIMDBData : String → Option OMDbResponse)
    (st : Store) (h : st.seriesDB.map (coverOf fetchIMDBData) ≠ st.seriesDB) :
    (updateMissingCovers fetchIMDBData st).1.saves = st.saves + 1 := by
  have hany : st.seriesDB.any (fun s => decide (coverOf fetchIMDBData s ≠ s)) = true :=
    (any_coverOf_ne fetchIMDBData st.seriesDB).mpr h
  rw [updateMissingCovers_eq]
  dsimp only
  rw [if_pos hany]
  rfl
theorem loadLoop_bounds (l : List Series) (hl : ∀ s ∈ l, s.ID < maxInt) :
    ∀ n : Int, 1 ≤ n → n ≤ maxInt →
      n ≤ l.foldl loadStep n ∧ l.foldl loadStep n ≤ maxInt ∧
        ∀ s ∈ l, s.ID < l.foldl loadStep n := by
  induction l with
  | nil => intro n _ h2; simp [h2]
  | cons s rest ih =>
    intro n h1 h2
    have hs : s.ID < maxInt := hl s (by simp)
    have hrest : ∀ x ∈ rest, x.ID < maxInt := fun x hx => hl x (by simp [hx])
    have hstep : n ≤ loadStep n s ∧ loadStep n s ≤ maxInt ∧ s.ID < loadStep n s := by
      unfold loadStep
      by_cases hge : s.ID ≥ n
      · rw [if_pos hge]
        unfold goAdd
        rw [wrapInt_of_range _ (by unfold minInt; omega) (by omega)]
        omega
      · rw [if_neg hge]
        omega
    obtain ⟨h3, h4, h5⟩ := ih hrest (loadStep n s) (by omega) hstep.2.1
    rw [List.foldl_cons]
    refine ⟨by omega, h4, ?_⟩
    intro x hx
    rcases List.mem_cons.mp hx with rfl | hx
    · omega
    · exact h5 x hx

theorem loadSeries_inv (snapshot : Snapshot)
    (hload : ∀ s ∈ (loadSeries snapshot).seriesDB, s.ID < maxInt) :
    1 ≤ (loadSeries snapshot).nextID ∧ (loadSeries snapshot).nextID ≤ maxInt ∧
      ∀ s ∈ (loadSeries snapshot).seriesDB, s.ID < (loadSeries snapshot).nextID := by
  cases snapshot with
  | missing => simp [loadSeries, maxInt]
  | malformed => simp [loadSeries, maxInt]
  | parsed records =>
    have := loadLoop_bounds records hload 1 (by omega) (by unfold maxInt; omega)
    exact this

theorem updateLoop_ids (id episodes : Int) (db : List Series) :
    (updateLoop id episodes db).1.map (fun s => s.ID) = db.map (fun s => s.ID) := by
  induction db with
  | nil => rfl
  | cons s rest ih =>
    by_cases hs : s.ID = id
    · simp [updateLoop, hs]
    · simp [updateLoop, hs, ih]

theorem updateHandler_fields (st : Store) (id episodes : Int) :
    (updateHandler st id episodes).1.nextID = st.nextID ∧
      (updateHandler st id episodes).1.seriesDB.map (fun s => s.ID)
        = st.seriesDB.map (fun s => s.ID) ∧
      ∀ i, (updateHandler st id episodes).2 ≠ Response.added i := by
  unfold updateHandler
  dsimp only
  split
  · exact ⟨rfl, updateLoop_ids id episodes st.seriesDB, fun i h => by cases h⟩
  · exact ⟨rfl, updateLoop_ids id episodes st.seriesDB, fun i h => by cases h⟩

theorem deleteHandler_fields (st : Store) (id : Int) :
    (deleteHandler st id).1.nextID = st.nextID ∧
      List.Sublist (deleteHandler st id).1.seriesDB st.seriesDB ∧
      ∀ i, (deleteHandler st id).2 ≠ Response.added i := by
  rw [deleteHandler_eq]
  exact ⟨rfl, List.filter_sublist _, fun i h => by cases h⟩

theorem addHandler_cases (st : Store) (series : OMDbResponse) :
    (addHandler st series = (st, Response.duplicate)) ∨
      ((addHandler st series).2 = Response.added st.nextID ∧
        (addHandler st series).1.nextID = goAdd st.nextID 1 ∧
        ∃ newSeries : Series, newSeries.ID = st.nextID ∧
          (addHandler st series).1.seriesDB = st.seriesDB ++ [newSeries]) := by
  unfold addHandler
  dsimp only
  split
  · exact Or.inl rfl
  · exact Or.inr ⟨rfl, rfl, _, rfl, rfl⟩
theorem applyOp_inv (st : Store) (op : Op) (rest : List Op)
    (h : IdsBelowNext st (countAdds (op :: rest))) :
    IdsBelowNext (applyOp st op).1 (countAdds rest) ∧
      st.nextID ≤ (applyOp st op).1.nextID ∧
      (∀ i, (applyOp st op).2 = Response.added i →
        i = st.nextID ∧ st.nextID < (applyOp st op).1.nextID) ∧
      ((st.seriesDB.map fun s => s.ID).Nodup →
        ((applyOp st op).1.seriesDB.map fun s => s.ID).Nodup) := by
  obtain ⟨h1, h2, h3⟩ := h
  cases op with
  | add series =>
    have hk : st.nextID + ((countAdds rest : Nat) : Int) + 1 ≤ maxInt := by
      simp only [countAdds] at h2
      push_cast at h2
      omega
    have hnext : goAdd st.nextID 1 = st.nextID + 1 := by
      unfold goAdd
      exact wrapInt_of_range _ (by omega) (by omega)
    rcases addHandler_cases st series with hdup | ⟨hresp, hn, newSeries, hid, hdb⟩
    · simp only [applyOp, hdup]
      refine ⟨⟨h1, by omega, h3⟩, le_refl _, ?_, fun hnd => hnd⟩
      intro i hi
      cases hi
    · simp only [applyOp]
      rw [hnext] at hn
      refine ⟨⟨by omega, by omega, ?_⟩, by omega, ?_, ?_⟩
      · intro s hs
        rw [hdb] at hs
        rw [hn]
        rcases List.mem_append.mp hs with hs | hs
        · have := h3 s hs
          omega
        · have : s = newSeries := by simpa using hs
          rw [this, hid]
          omega
      · intro i hi
        rw [hresp] at hi
        have : st.nextID = i := by simpa using hi
        omega
      · intro hnd
        rw [hdb, List.map_append, List.nodup_append]
        refine ⟨hnd, by simp, ?_⟩
        intro a ha hb
        have hb2 : a = newSeries.ID := by simpa using hb
        obtain ⟨s, hs, rfl⟩ := List.mem_map.mp ha
        have := h3 s hs
        omega
  | update id episodes =>
    obtain ⟨hn, hids, hresp⟩ := updateHandler_fields st id episodes
    have hk : st.nextID + ((countAdds rest : Nat) : Int) ≤ maxInt := by
      simpa [countAdds] using h2
    simp only [applyOp]
    refine ⟨⟨by omega, by omega, ?_⟩, by omega, ?_, ?_⟩
    · intro s hs
      have hmem : s.ID ∈ (updateHandler st id episodes).1.seriesDB.map (fun s => s.ID) :=
        List.mem_map_of_mem _ hs
      rw [hids] at hmem
      obtain ⟨t, ht, hteq⟩ := List.mem_map.mp hmem
      have := h3 t ht
      have hteq2 : t.ID = s.ID := hteq
      omega
    · intro i hi
      exact absurd hi (hresp i)
    · intro hnd
      rw [hids]
      exact hnd
  | delete id =>
    obtain ⟨hn, hsub, hresp⟩ := deleteHandler_fields st id
    have hk : st.nextID + ((countAdds rest : Nat) : Int) ≤ maxInt := by
      simpa [countAdds] using h2
    simp only [applyOp]
    refine ⟨⟨by omega, by omega, ?_⟩, by omega, ?_, ?_⟩
    · intro s hs
      have := h3 s (hsub.subset hs)
      omega
    · intro i hi
      exact absurd hi (hresp i)
    · intro hnd
      exact (hsub.map _).nodup hnd
theorem runOps_append (p : List Op) : ∀ (st : Store) (q : List Op),
    runOps st (p ++ q) = runOps (runOps st p) q := by
  induction p with
  | nil => intro st q; rfl
  | cons op rest ih => intro st q; simp [runOps, ih]

theorem runOps_inv (ops : List Op) : ∀ st : Store, IdsBelowNext st (countAdds ops) →
    (∀ i ∈ assignedIds st ops, st.nextID ≤ i) ∧
      List.Pairwise (fun a b : Int => a < b) (assignedIds st ops) ∧
      ∀ p q, ops = p ++ q →
        IdsBelowNext (runOps st p) (countAdds q) ∧ st.nextID ≤ (runOps st p).nextID ∧
          ((st.seriesDB.map fun s => s.ID).Nodup →
            ((runOps st p).seriesDB.map fun s => s.ID).Nodup) := by
  induction ops with
  | nil =>
    intro st h
    refine ⟨by simp [assignedIds], by simp [assignedIds], ?_⟩
    intro p q hpq
    have hp : p = [] := by
      cases p with
      | nil => rfl
      | cons a b => simp at hpq
    have hq : q = [] := by
      rw [hp] at hpq
      simpa using hpq.symm
    rw [hp, hq]
    exact ⟨h, le_refl _, fun hnd => hnd⟩
  | cons op rest ih =>
    intro st h
    obtain ⟨hinv, hmono, hresp, hnd⟩ := applyOp_inv st op rest h
    obtain ⟨hge, hpw, hpre⟩ := ih (applyOp st op).1 hinv
    have hassigned : (∀ i ∈ assignedIds st (op :: rest), st.nextID ≤ i) ∧
        List.Pairwise (fun a b : Int => a < b) (assignedIds st (op :: rest)) := by
      cases hr : (applyOp st op).2 with
      | added i =>
        obtain ⟨hi, hlt⟩ := hresp i hr
        have heq : assignedIds st (op :: rest) = i :: assignedIds (applyOp st op).1 rest := by
          simp [assignedIds, hr]
        rw [heq]
        constructor
        · intro j hj
          rcases List.mem_cons.mp hj with rfl | hj
          · omega
          · have := hge j hj
            omega
        · rw [List.pairwise_cons]
          refine ⟨?_, hpw⟩
          intro j hj
          have := hge j hj
          omega
      | redirect =>
        have heq : assignedIds st (op :: rest) = assignedIds (applyOp st op).1 rest := by
          simp [assignedIds, hr]
        rw [heq]
        exact ⟨fun j hj => le_trans hmono (hge j hj), hpw⟩
      | notFound =>
        have heq : assignedIds st (op :: rest) = assignedIds (applyOp st op).1 rest := by
          simp [assignedIds, hr]
        rw [heq]
        exact ⟨fun j hj => le_trans hmono (hge j hj), hpw⟩
      | duplicate =>
        have heq : assignedIds st (op :: rest) = assignedIds (applyOp st op).1 rest := by
          simp [assignedIds, hr]
        rw [heq]
        exact ⟨fun j hj => le_trans hmono (hge j hj), hpw⟩
    refine ⟨hassigned.1, hassigned.2, ?_⟩
    intro p q hpq
    cases p with
    | nil =>
      have hq : q = op :: rest := by simpa using hpq.symm
      rw [hq]
      exact ⟨h, le_refl _, fun hn => hn⟩
    | cons a p1 =>
      have hsplit : op = a ∧ rest = p1 ++ q := by simpa using hpq
      obtain ⟨h1, h2, h3⟩ := hpre p1 q hsplit.2
      rw [← hsplit.1]
      simp only [runOps]
      exact ⟨h1, le_trans hmono h2, fun hn => h3 (hnd hn)⟩
theorem tdiv_in_range (a b : Int) (hb : 0 < b) (h1 : minInt ≤ a) (h2 : a ≤ maxInt) :
    minInt ≤ Int.tdiv a b ∧ Int.tdiv a b ≤ maxInt := by
  by_cases ha : 0 ≤ a
  · have hq : Int.tdiv a b = a / b := Int.tdiv_eq_ediv ha (by omega)
    have hlo : 0 ≤ a / b := Int.ediv_nonneg ha (by omega)
    have hhi : a / b ≤ a := Int.ediv_le_self b ha
    rw [hq]
    unfold minInt at *
    omega
  · have hneg : Int.tdiv a b = -(Int.tdiv (-a) b) := by
      rw [Int.neg_tdiv]
      omega
    have hq : Int.tdiv (-a) b = -a / b := Int.tdiv_eq_ediv (by omega) (by omega)
    have hlo : 0 ≤ -a / b := Int.ediv_nonneg (by omega) (by omega)
    have hhi : -a / b ≤ -a := Int.ediv_le_self b (by omega)
    rw [hneg, hq]
    unfold maxInt at *
    omega

theorem goProgress_exact (watched total : Int) (hte : 0 < total)
    (h1 : minInt ≤ watched * 100) (h2 : watched * 100 ≤ maxInt) :
    goDiv (goMul watched 100) total = Int.tdiv (watched * 100) total := by
  have hmul : goMul watched 100 = watched * 100 := by
    unfold goMul
    exact wrapInt_of_range _ h1 h2
  obtain ⟨h3, h4⟩ := tdiv_in_range (watched * 100) total hte h1 h2
  rw [hmul]
  unfold goDiv
  exact wrapInt_of_range _ h3 h4
theorem pagesInv_autoPages (n : Nat) : ∀ (pdf : List Page) (m c : Nat),
    PagesInv pdf m c →
      PagesInv (autoPages n pdf) m c ∧ blocksOf (autoPages n pdf) = blocksOf pdf ∧
        (autoPages n pdf).filter (fun p => p.heading.isSome)
          = pdf.filter (fun p => p.heading.isSome) ∧
        (n = 0 → autoPages n pdf = pdf) := by
  induction n with
  | zero => intro pdf m c h; exact ⟨h, rfl, rfl, fun _ => rfl⟩
  | succ n ih =>
    intro pdf m c h
    obtain ⟨hc, hg, _, hall⟩ := h
    have hinv : PagesInv ({ heading := none, blocks := [] } :: pdf) m c := by
      refine ⟨hc, ?_, ⟨_, _, rfl, by simp⟩, ?_⟩
      · intro pending
        simp [groupsFrom, hg]
      · intro page hp
        rcases List.mem_cons.mp hp with rfl | hp
        · simp
        · exact hall page hp
    obtain ⟨h1, h2, h3, _⟩ := ih _ m c hinv
    refine ⟨h1, ?_, ?_, by omega⟩
    · simp only [autoPages]
      rw [h2]
      simp [blocksOf]
    · simp only [autoPages]
      rw [h3]
      simp

theorem pagesInv_draw (autoBreak : List Page → Series → Nat) (pdf : List Page) (m c : Nat)
    (s : Series) (h : PagesInv pdf m c) (hc : c ≤ 3) :
    PagesInv (drawBlock autoBreak pdf s) m (c + 1) ∧
      blocksOf (drawBlock autoBreak pdf s) = blocksOf pdf ++ [s] ∧
      ((drawBlock autoBreak pdf s).filter (fun p => p.heading.isSome)).length
        = (pdf.filter (fun p => p.heading.isSome)).length ∧
      (autoBreak pdf s = 0 → (∀ p ∈ pdf, p.heading.isSome = true) →
        ∀ p ∈ drawBlock autoBreak pdf s, p.heading.isSome = true) := by
  obtain ⟨⟨_, hg, ⟨page, earlier, hpdf, hhead⟩, hall⟩, hblocks, hfilter, hzero⟩ :=
    pagesInv_autoPages (autoBreak pdf s) pdf m c h
  have hdraw : drawBlock autoBreak pdf s
      = { page with blocks := page.blocks ++ [s] } :: earlier := by
    simp [drawBlock, hpdf]
  rw [hdraw]
  refine ⟨⟨by omega, ?_, ⟨_, _, rfl, by simp; omega⟩, ?_⟩, ?_, ?_, ?_⟩
  · intro pending
    have h1 := hg (pending + 1)
    rw [hpdf] at h1
    simp only [groupsFrom, List.length_append, List.length_cons, List.length_nil] at h1 ⊢
    have e1 : page.blocks.length + (0 + 1) + pending = page.blocks.length + (pending + 1) := by
      omega
    have e2 : c + 1 + pending = c + (pending + 1) := by omega
    rw [e1, e2]
    exact h1
  · intro p hp
    rcases List.mem_cons.mp hp with rfl | hp
    · simp; omega
    · exact hall p (by rw [hpdf]; exact List.mem_cons_of_mem _ hp)
  · rw [← hblocks, hpdf]
    simp [blocksOf]
  · rw [← hfilter, hpdf]
    simp [List.filter_cons]
    split <;> simp
  · intro h0 hsome p hp
    have hsame := hzero h0
    rw [hpdf] at hsame
    rcases List.mem_cons.mp hp with rfl | hp
    · exact hsome page (by rw [← hsame]; simp)
    · exact hsome p (by rw [← hsame]; exact List.mem_cons_of_mem _ hp)

theorem pagesInv_addPage (heading : String) (pdf : List Page) (m : Nat)
    (h : PagesInv pdf m 4) :
    PagesInv (addPage heading pdf) (m + 1) 0 ∧ blocksOf (addPage heading pdf) = blocksOf pdf ∧
      ((addPage heading pdf).filter (fun p => p.heading.isSome)).length
        = (pdf.filter (fun p => p.heading.isSome)).length + 1 := by
  obtain ⟨_, hg, _, hall⟩ := h
  refine ⟨⟨by omega, ?_, ⟨_, _, rfl, by simp⟩, ?_⟩, ?_, ?_⟩
  · intro pending
    simp [addPage, groupsFrom, hg, List.replicate_succ', List.append_assoc]
  · intro p hp
    rcases List.mem_cons.mp hp with rfl | hp
    · simp
    · exact hall p hp
  · simp [addPage, blocksOf]
  · simp [addPage, List.filter_cons]
theorem groupsFrom_length (pdf : List Page) : ∀ pending : Nat,
    (groupsFrom pdf pending).length = (pdf.filter (fun p => p.heading.isSome)).length := by
  induction pdf with
  | nil => intro pending; rfl
  | cons page earlier ih =>
    intro pending
    by_cases hh : page.heading.isSome = true
    · simp [groupsFrom, List.filter_cons, hh, ih]
    · simp [groupsFrom, List.filter_cons, hh, ih]

theorem groupsFrom_all_headings (pdf : List Page)
    (h : ∀ p ∈ pdf, p.heading.isSome = true) :
    groupsFrom pdf 0 = pdf.reverse.map (fun p => p.blocks.length) := by
  induction pdf with
  | nil => rfl
  | cons page earlier ih =>
    have hh : page.heading.isSome = true := h page (by simp)
    have := ih (fun p hp => h p (List.mem_cons_of_mem _ hp))
    simp [groupsFrom, hh, this]

theorem pdfLoop_inv (autoBreak : List Page → Series → Nat) (l : List Series) :
    ∀ (pdf : List Page) (m c : Nat) (countOnPage : Int),
      countOnPage = (c : Int) → PagesInv pdf m c →
      ∃ m1 c1, PagesInv (pdfLoop autoBreak l (pdf, countOnPage)).1 m1 c1 ∧
        4 * m1 + c1 = 4 * m + c + l.length ∧ (l ≠ [] ∨ 1 ≤ c → 1 ≤ c1) ∧
        blocksOf (pdfLoop autoBreak l (pdf, countOnPage)).1 = blocksOf pdf ++ l ∧
        ((∀ pdf s, autoBreak pdf s = 0) → (∀ p ∈ pdf, p.heading.isSome = true) →
          ∀ p ∈ (pdfLoop autoBreak l (pdf, countOnPage)).1, p.heading.isSome = true) := by
  induction l with
  | nil =>
    intro pdf m c countOnPage _ h
    exact ⟨m, c, h, by simp, by simp, by simp [pdfLoop], fun _ hs => hs⟩
  | cons s rest ih =>
    intro pdf m c countOnPage hc h
    by_cases hfull : countOnPage = 4
    · have hc4 : c = 4 := by omega
      rw [hc4] at h
      obtain ⟨hadd, hblocks, _⟩ :=
        pagesInv_addPage "Meine Serienliste (Fortsetzung)" pdf m h
      obtain ⟨hdraw, hblocks2, _, hsome2⟩ :=
        pagesInv_draw autoBreak _ (m + 1) 0 s hadd (by omega)
      have hone : goAdd 0 1 = ((0 + 1 : Nat) : Int) := by decide
      obtain ⟨m1, c1, h1, h2, h3, h4, h5⟩ := ih _ (m + 1) (0 + 1) (goAdd 0 1) hone hdraw
      refine ⟨m1, c1, ?_, ?_, ?_, ?_, ?_⟩
      · simpa [pdfLoop, hfull] using h1
      · simp only [List.length_cons]
        omega
      · intro _
        exact h3 (Or.inr (by omega))
      · simp only [pdfLoop, hfull, if_true]
        rw [h4, hblocks2, hblocks]
        simp
      · intro h0 hsome
        simp only [pdfLoop, hfull, if_true]
        apply h5 h0
        apply hsome2 (h0 _ _)
        intro p hp
        rcases List.mem_cons.mp hp with rfl | hp
        · rfl
        · exact hsome p hp
    · have hc3 : c ≤ 3 := by
        have := h.1
        omega
      obtain ⟨hdraw, hblocks2, _, hsome2⟩ := pagesInv_draw autoBreak pdf m c s h hc3
      have hnext : goAdd countOnPage 1 = ((c + 1 : Nat) : Int) := by
        unfold goAdd
        rw [wrapInt_of_range _ (by unfold minInt; omega) (by unfold maxInt; omega)]
        push_cast
        omega
      obtain ⟨m1, c1, h1, h2, h3, h4, h5⟩ := ih _ m (c + 1) (goAdd countOnPage 1) hnext hdraw
      refine ⟨m1, c1, ?_, ?_, ?_, ?_, ?_⟩
      · simpa [pdfLoop, hfull] using h1
      · simp only [List.length_cons]
        omega
      · intro _
        exact h3 (Or.inr (by omega))
      · simp only [pdfLoop, hfull, if_false]
        rw [h4, hblocks2]
        simp
      · intro h0 hsome
        simp only [pdfLoop, hfull, if_false]
        exact h5 h0 (hsome2 (h0 _ _) hsome)
theorem pdfHandler_shape (autoBreak : List Page → Series → Nat) (st : Store) :
    ∃ full last : Nat,
      groupCounts (pdfHandler autoBreak st) = List.replicate full 4 ++ [last] ∧ last ≤ 4 ∧
      (st.seriesDB.length ≠ 0 → 1 ≤ last) ∧ last + 4 * full = st.seriesDB.length ∧
      ((pdfHandler autoBreak st).filter (fun p => p.heading.isSome)).length = full + 1 ∧
      (∀ page ∈ pdfHandler autoBreak st, page.blocks.length ≤ 4) ∧
      ((pdfHandler autoBreak st).map fun page => page.blocks).flatten = (getAllSeries st).2 ∧
      ((∀ pdf s, autoBreak pdf s = 0) →
        (pdfHandler autoBreak st).map (fun page => page.blocks.length)
          = List.replicate full 4 ++ [last]) := by
  have hinit : PagesInv (addPage "Meine Serienliste" []) 0 0 := by
    refine ⟨by omega, ?_, ⟨_, _, rfl, by simp⟩, ?_⟩
    · intro pending
      simp [addPage, groupsFrom]
    · intro p hp
      have : p = { heading := some "Meine Serienliste", blocks := [] } := by
        simpa [addPage] using hp
      rw [this]
      simp
  obtain ⟨m1, c1, hinv, hsum, hpos, hblocks, hsome⟩ :=
    pdfLoop_inv autoBreak (getAllSeries st).2 (addPage "Meine Serienliste" []) 0 0 0
      (by simp) hinit
  have hlen : (getAllSeries st).2.length = st.seriesDB.length := by
    simp [getAllSeries_eq_map]
  obtain ⟨hc, hg, _, hall⟩ := hinv
  have hgroups : groupCounts (pdfHandler autoBreak st) = List.replicate m1 4 ++ [c1] := by
    unfold groupCounts pdfHandler
    rw [List.reverse_reverse]
    simpa using hg 0
  refine ⟨m1, c1, hgroups, hc, ?_, ?_, ?_, ?_, ?_, ?_⟩
  · intro hne
    apply hpos
    left
    intro hnil
    rw [hnil] at hlen
    exact hne hlen.symm
  · rw [hlen] at hsum
    omega
  · have h1 := groupsFrom_length
      (pdfLoop autoBreak (getAllSeries st).2 (addPage "Meine Serienliste" [], 0)).1 0
    rw [hg 0] at h1
    unfold pdfHandler
    rw [List.filter_reverse, List.length_reverse, ← h1]
    simp
  · intro page hp
    unfold pdfHandler at hp
    exact hall page (List.mem_reverse.mp hp)
  · have : blocksOf (addPage "Meine Serienliste" []) = [] := by
      simp [blocksOf, addPage]
    rw [this] at hblocks
    unfold pdfHandler
    simpa [blocksOf] using hblocks
  · intro h0
    have hs := hsome h0 (by
      intro p hp
      have : p = { heading := some "Meine Serienliste", blocks := [] } := by
        simpa [addPage] using hp
      rw [this]
      rfl)
    have h2 := groupsFrom_all_headings _ hs
    rw [hg 0] at h2
    unfold pdfHandler
    simpa using h2.symm

/-! ## The claims -/

/-- C1: when the fetched record's IMDb id equals that of a record already in the
catalog, `addHandler` answers with the duplicate error and the store (`seriesDB`,
`nextID` and the save count) is exactly what it was before the call. -/
theorem add_duplicate_rejected (st : Store) (series : OMDbResponse)
    (h : ∃ s ∈ st.seriesDB, s.IMDBID = series.IMDBID) :
    addHandler st series = (st, Response.duplicate) := by
  have hex : alreadyExists series.IMDBID st.seriesDB = true :=
    (alreadyExists_iff _ _).mpr h
  simp [addHandler, hex]

/-- C1 at a catalog that already holds the fetched IMDb id. -/
theorem add_duplicate_rejected_witness :
    (∃ s ∈ twoStore.seriesDB, s.IMDBID = breakingBad.IMDBID) ∧
      addHandler twoStore breakingBad = (twoStore, Response.duplicate) :=
  ⟨⟨mkSeries 1 "tt0903747" 3 50, by decide, by decide⟩,
    add_duplicate_rejected twoStore breakingBad ⟨mkSeries 1 "tt0903747" 3 50, by decide, by decide⟩⟩

/-- C10, as the code has it: when the fetched record's IMDb id matches no record of the
catalog, `addHandler` hands out the previous `nextID`, advances `nextID` by Go's `++`,
which is `nextID + 1` provided `nextID` is below the largest `int`, and appends exactly
one record with that id, the fetched title, year and IMDb id, status "Watching" and no
episode watched; the listing grows by one entry, the new one, whose progress is 0. -/
theorem add_fresh_appends (st : Store) (series : OMDbResponse)
    (h : ∀ s ∈ st.seriesDB, s.IMDBID ≠ series.IMDBID) :
    ∃ newSeries : Series,
      (addHandler st series).2 = Response.added st.nextID ∧
      (addHandler st series).1.nextID = goAdd st.nextID 1 ∧
      (minInt ≤ st.nextID → st.nextID < maxInt →
        (addHandler st series).1.nextID = st.nextID + 1) ∧
      (addHandler st series).1.seriesDB = st.seriesDB ++ [newSeries] ∧
      newSeries.ID = st.nextID ∧ newSeries.Title = series.Title ∧
      newSeries.Year = series.Year ∧ newSeries.IMDBID = series.IMDBID ∧
      newSeries.Status = "Watching" ∧ newSeries.EpisodesWatched = 0 ∧
      (getAllSeries (addHandler st series).1).2.length = (getAllSeries st).2.length + 1 ∧
      (getAllSeries (addHandler st series).1).2
        = (getAllSeries st).2 ++ [withProgress newSeries] ∧
      (withProgress newSeries).Progress = 0 := by
  have hex : alreadyExists series.IMDBID st.seriesDB = false := by
    cases hb : alreadyExists series.IMDBID st.seriesDB with
    | false => rfl
    | true =>
      obtain ⟨s, hs, hid⟩ := (alreadyExists_iff _ _).mp hb
      exact absurd hid (h s hs)
  refine ⟨{ ID := st.nextID, Title := series.Title, Year := series.Year,
            IMDBID := series.IMDBID, EpisodesWatched := 0,
            TotalEpisodes := totalEpisodesOf series, Status := "Watching",
            Progress := 0, CoverURL := series.Poster }, ?_, ?_, ?_, ?_, rfl, rfl, rfl, rfl, rfl,
          rfl, ?_, ?_, ?_⟩
  · simp [addHandler, hex]
  · simp [addHandler, hex, saveSeries]
  · intro h1 h2
    have : goAdd st.nextID 1 = st.nextID + 1 := by
      unfold goAdd
      apply wrapInt_of_range
      · unfold minInt at *; omega
      · unfold maxInt at *; omega
    simp [addHandler, hex, saveSeries, this]
  · simp [addHandler, hex, saveSeries]
  · simp [getAllSeries_eq_map, addHandler, hex, saveSeries]
  · simp [getAllSeries_eq_map, addHandler, hex, saveSeries]
  · by_cases hte : totalEpisodesOf series > 0
    · simp [withProgress, hte, goMul, goDiv, wrapInt]
    · simp [withProgress, hte]

/-- C10 at the scenario of the specification: Breaking Bad added to an empty catalog
gives id 1 and a listing of one entry with progress 0. -/
theorem add_fresh_appends_witness :
    (∀ s ∈ emptyStore.seriesDB, s.IMDBID ≠ breakingBad.IMDBID) ∧
      (addHandler emptyStore breakingBad).2 = Response.added 1 ∧
      ((getAllSeries (addHandler emptyStore breakingBad).1).2.map fun s => s.Progress) = [0] ∧
      ∃ newSeries : Series,
        (addHandler emptyStore breakingBad).2 = Response.added emptyStore.nextID ∧
        (addHandler emptyStore breakingBad).1.nextID = goAdd emptyStore.nextID 1 ∧
        (minInt ≤ emptyStore.nextID → emptyStore.nextID < maxInt →
          (addHandler emptyStore breakingBad).1.nextID = emptyStore.nextID + 1) ∧
        (addHandler emptyStore breakingBad).1.seriesDB = emptyStore.seriesDB ++ [newSeries] ∧
        newSeries.ID = emptyStore.nextID ∧ newSeries.Title = breakingBad.Title ∧
        newSeries.Year = breakingBad.Year ∧ newSeries.IMDBID = breakingBad.IMDBID ∧
        newSeries.Status = "Watching" ∧ newSeries.EpisodesWatched = 0 ∧
        (getAllSeries (addHandler emptyStore breakingBad).1).2.length
          = (getAllSeries emptyStore).2.length + 1 ∧
        (getAllSeries (addHandler emptyStore breakingBad).1).2
          = (getAllSeries emptyStore).2 ++ [withProgress newSeries] ∧
        (withProgress newSeries).Progress = 0 :=
  ⟨by decide, by decide, by decide, add_fresh_appends emptyStore breakingBad (by decide)⟩

/-- C10 as stated fails at the end of the `int` range: with `nextID` at
9223372036854775807 a successful add hands out that id and leaves `nextID` at
-9223372036854775808, not at `nextID + 1`. -/
theorem add_fresh_appends_counterexample :
    (∀ s ∈ (loadSeries lastIdSnapshot).seriesDB, s.IMDBID ≠ theWire.IMDBID) ∧
    (loadSeries lastIdSnapshot).nextID = 9223372036854775807 ∧
    (addHandler (loadSeries lastIdSnapshot) theWire).2 = Response.added 9223372036854775807 ∧
    (addHandler (loadSeries lastIdSnapshot) theWire).1.nextID = -9223372036854775808 ∧
    (addHandler (loadSeries lastIdSnapshot) theWire).1.nextID
      ≠ (loadSeries lastIdSnapshot).nextID + 1 := by
  refine ⟨by decide, by decide, by decide, by decide, by decide⟩

/-- C3: if no record has the id, `updateHandler` answers NotFound and the store is
unchanged; otherwise it succeeds, the catalog keeps its length and order, the first
record with that id gets `EpisodesWatched` set to the given count and keeps all its
other fields, every other record is unchanged, and `nextID` is unchanged. -/
theorem update_contract (st : Store) (id episodes : Int) :
    ((∀ s ∈ st.seriesDB, s.ID ≠ id) →
      updateHandler st id episodes = (st, Response.notFound)) ∧
    ((∃ s ∈ st.seriesDB, s.ID = id) →
      (updateHandler st id episodes).2 = Response.redirect ∧
      (updateHandler st id episodes).1.nextID = st.nextID ∧
      (updateHandler st id episodes).1.seriesDB.length = st.seriesDB.length ∧
      ∃ pre s post, st.seriesDB = pre ++ s :: post ∧ (∀ x ∈ pre, x.ID ≠ id) ∧ s.ID = id ∧
        (updateHandler st id episodes).1.seriesDB
          = pre ++ { s with EpisodesWatched := episodes } :: post) := by
  constructor
  · intro h
    simp [updateHandler, updateLoop_absent id episodes st.seriesDB h]
  · intro h
    obtain ⟨pre, s, post, hdb, hpre, hs, hloop⟩ := updateLoop_present id episodes st.seriesDB h
    refine ⟨?_, ?_, ?_, pre, s, post, hdb, hpre, hs, ?_⟩
    · simp [updateHandler, hloop]
    · simp [updateHandler, hloop, saveSeries]
    · have : (updateHandler st id episodes).1.seriesDB
          = pre ++ { s with EpisodesWatched := episodes } :: post := by
        simp [updateHandler, hloop, saveSeries]
      rw [this, hdb]
      simp
    · simp [updateHandler, hloop, saveSeries]

/-- C3 at a two-record catalog: an absent id and a present id. -/
theorem update_contract_witness :
    updateHandler twoStore 7 12 = (twoStore, Response.notFound) ∧
      (updateHandler twoStore 2 12).2 = Response.redirect ∧
      (updateHandler twoStore 2 12).1.seriesDB
        = [mkSeries 1 "tt0903747" 3 50, mkSeries 2 "tt0306414" 12 60] ∧
      (updateHandler twoStore 2 12).1.seriesDB.length = twoStore.seriesDB.length :=
  ⟨(update_contract twoStore 7 12).1 (by decide),
    ((update_contract twoStore 2 12).2 ⟨mkSeries 2 "tt0306414" 60 60, by decide, by decide⟩).1,
    by decide,
    ((update_contract twoStore 2 12).2
      ⟨mkSeries 2 "tt0306414" 60 60, by decide, by decide⟩).2.2.1⟩

/-- C4: `deleteHandler` never fails; the catalog afterwards is exactly the records
whose id differs from the given one, in their original order, and `nextID` is
untouched. So an absent id leaves the catalog content as it was, with unique ids a
present id shortens the catalog by exactly one, and deleting the same id twice gives
the same catalog as deleting it once. -/
theorem delete_contract (st : Store) (id : Int) :
    (deleteHandler st id).2 = Response.redirect ∧
    (deleteHandler st id).1.seriesDB = st.seriesDB.filter (fun s => decide (s.ID ≠ id)) ∧
    (deleteHandler st id).1.nextID = st.nextID ∧
    List.Sublist (deleteHandler st id).1.seriesDB st.seriesDB ∧
    (∀ s ∈ (deleteHandler st id).1.seriesDB, s.ID ≠ id) ∧
    ((∀ s ∈ st.seriesDB, s.ID ≠ id) → (deleteHandler st id).1.seriesDB = st.seriesDB) ∧
    ((st.seriesDB.map fun s => s.ID).Nodup → (∃ s ∈ st.seriesDB, s.ID = id) →
      (deleteHandler st id).1.seriesDB.length + 1 = st.seriesDB.length) ∧
    (deleteHandler (deleteHandler st id).1 id).1.seriesDB = (deleteHandler st id).1.seriesDB ∧
    (deleteHandler (deleteHandler st id).1 id).1.nextID = (deleteHandler st id).1.nextID := by
  have hdb : (deleteHandler st id).1.seriesDB
      = st.seriesDB.filter (fun s => decide (s.ID ≠ id)) := by
    rw [deleteHandler_eq]; rfl
  have hnext : ∀ st : Store, (deleteHandler st id).1.nextID = st.nextID := by
    intro st; rw [deleteHandler_eq]; rfl
  have hdb2 : ∀ st : Store, (deleteHandler st id).1.seriesDB
      = st.seriesDB.filter (fun s => decide (s.ID ≠ id)) := by
    intro st; rw [deleteHandler_eq]; rfl
  refine ⟨by rw [deleteHandler_eq], hdb, hnext st, ?_, ?_, ?_, ?_, ?_, ?_⟩
  · rw [hdb]; exact List.filter_sublist _
  · intro s hs
    rw [hdb] at hs
    simpa using (List.mem_filter.mp hs).2
  · intro h
    rw [hdb]
    exact List.filter_eq_self.mpr (fun s hs => by simpa using h s hs)
  · intro hn h
    rw [hdb]
    exact filter_length_of_nodup id st.seriesDB hn h
  · rw [hdb2 (deleteHandler st id).1, hdb, List.filter_filter]
    simp
  · rw [hnext]

/-- C4 at a two-record catalog: an absent id and a present id. -/
theorem delete_contract_witness :
    (deleteHandler twoStore 9).1.seriesDB = twoStore.seriesDB ∧
      (deleteHandler twoStore 1).1.seriesDB.length + 1 = twoStore.seriesDB.length ∧
      (deleteHandler twoStore 1).1.seriesDB = [mkSeries 2 "tt0306414" 60 60] :=
  ⟨(delete_contract twoStore 9).2.2.2.2.2.1 (by decide),
    (delete_contract twoStore 1).2.2.2.2.2.2.1 (by decide)
      ⟨mkSeries 1 "tt0903747" 3 50, by decide, by decide⟩,
    by decide⟩

/-- C5, as the code has it: `getAllSeries` returns a list of the same length and order
as the catalog in which each record equals the stored one except for `Progress`, which
is Go's `EpisodesWatched * 100 / TotalEpisodes` on `int` when `TotalEpisodes > 0` and 0
otherwise; this is the quotient truncated towards zero provided the product
`EpisodesWatched * 100` lies within the `int` range; the result is the same whatever the
stored `Progress` fields hold, and the call leaves the store as it was. -/
theorem list_contract (st : Store) :
    (getAllSeries st).1 = st ∧
    (getAllSeries st).2.length = st.seriesDB.length ∧
    (getAllSeries st).2 = st.seriesDB.map (fun s =>
      { s with Progress :=
          if s.TotalEpisodes > 0 then goDiv (goMul s.EpisodesWatched 100) s.TotalEpisodes
          else 0 }) ∧
    (∀ s : Series, s.TotalEpisodes > 0 → minInt ≤ s.EpisodesWatched * 100 →
      s.EpisodesWatched * 100 ≤ maxInt →
      goDiv (goMul s.EpisodesWatched 100) s.TotalEpisodes
        = Int.tdiv (s.EpisodesWatched * 100) s.TotalEpisodes) ∧
    ∀ stale : Series → Int,
      (getAllSeries { st with
          seriesDB := st.seriesDB.map fun s => { s with Progress := stale s } }).2
        = (getAllSeries st).2 := by
  refine ⟨rfl, by simp [getAllSeries_eq_map], ?_, ?_, ?_⟩
  · rw [getAllSeries_eq_map]
    apply List.map_congr_left
    intro s _
    by_cases hte : s.TotalEpisodes > 0
    · simp [withProgress, hte]
    · simp [withProgress, hte]
  · intro s hte h1 h2
    exact goProgress_exact _ _ hte h1 h2
  · intro stale
    rw [getAllSeries_eq_map, getAllSeries_eq_map, List.map_map]
    apply List.map_congr_left
    intro s _
    by_cases hte : s.TotalEpisodes > 0
    · simp [withProgress, hte]
    · simp [withProgress, hte]

/-- C5 at a two-record catalog: the listing shows progress 6 and 100, also when the
stored `Progress` fields hold stale values. -/
theorem list_contract_witness :
    ((getAllSeries twoStore).2.map fun s => s.Progress) = [6, 100] ∧
      goDiv (goMul 3 100) 50 = Int.tdiv (3 * 100) 50 ∧
      (getAllSeries { twoStore with
          seriesDB := twoStore.seriesDB.map fun s => { s with Progress := 77 } }).2
        = (getAllSeries twoStore).2 :=
  ⟨by decide,
    (list_contract twoStore).2.2.2.1 (mkSeries 1 "tt0903747" 3 50) (by decide) (by decide)
      (by decide),
    (list_contract twoStore).2.2.2.2 (fun _ => 77)⟩

/-- C5 as stated fails: for a record with 92233720368547759 of 92233720368547759
episodes the quotient `EpisodesWatched * 100 / TotalEpisodes` is 100, but the product
leaves the `int` range, wraps around, and the listing shows progress -99. -/
theorem list_contract_counterexample :
    (hugeStore.seriesDB.map fun s => (s.EpisodesWatched, s.TotalEpisodes))
      = [(92233720368547759, 92233720368547759)] ∧
    Int.tdiv (92233720368547759 * 100) 92233720368547759 = 100 ∧
    (92233720368547759 * 100 : Int) / 92233720368547759 = 100 ∧
    maxInt < 92233720368547759 * 100 ∧
    ((getAllSeries hugeStore).2.map fun s => s.Progress) = [-99] ∧
    ¬ (((getAllSeries hugeStore).2.map fun s => s.Progress)
        = hugeStore.seriesDB.map fun s =>
            if s.TotalEpisodes > 0 then Int.tdiv (s.EpisodesWatched * 100) s.TotalEpisodes
            else 0) := by
  refine ⟨by decide, by decide, by decide, by decide, by decide, by decide⟩

/-- C6, as the code has it: in the listing, progress lies in [0, 100] when
`0 ≤ EpisodesWatched ≤ TotalEpisodes` and `EpisodesWatched * 100` fits Go's `int`, and
it is exactly 0 when `TotalEpisodes` is 0, whatever `EpisodesWatched` is. -/
theorem progress_bounds (st : Store) (s : Series) (hs : s ∈ (getAllSeries st).2) :
    (0 ≤ s.EpisodesWatched → s.EpisodesWatched ≤ s.TotalEpisodes →
      s.EpisodesWatched * 100 ≤ maxInt → 0 ≤ s.Progress ∧ s.Progress ≤ 100) ∧
    (s.TotalEpisodes = 0 → s.Progress = 0) := by
  rw [getAllSeries_eq_map] at hs
  obtain ⟨r, _, rfl⟩ := List.mem_map.mp hs
  obtain ⟨hw, ht, _⟩ := withProgress_fields r
  rw [hw, ht, withProgress_progress]
  constructor
  · intro h0 h1 h2
    by_cases hte : r.TotalEpisodes > 0
    · rw [if_pos hte]
      exact goProgress_bounds _ _ h0 h1 h2 hte
    · rw [if_neg hte]
      omega
  · intro h
    have hte : ¬ r.TotalEpisodes > 0 := by omega
    rw [if_neg hte]

/-- C6 at a record with 3 of 50 episodes watched and at a record without episodes. -/
theorem progress_bounds_witness :
    withProgress (mkSeries 1 "tt0903747" 3 50) ∈ (getAllSeries twoStore).2 ∧
      (0 ≤ (withProgress (mkSeries 1 "tt0903747" 3 50)).Progress ∧
        (withProgress (mkSeries 1 "tt0903747" 3 50)).Progress ≤ 100) ∧
      (withProgress (mkSeries 3 "tt0141842" 7 0)).Progress = 0 :=
  ⟨by decide,
    (progress_bounds twoStore (withProgress (mkSeries 1 "tt0903747" 3 50)) (by decide)).1
      (by decide) (by decide) (by decide),
    (progress_bounds (loadSeries (Snapshot.parsed [mkSeries 3 "tt0141842" 7 0]))
      (withProgress (mkSeries 3 "tt0141842" 7 0)) (by decide)).2 (by decide)⟩

/-- C6 as stated fails: after `updateHandler` has stored a negative episode count the
listing shows a negative progress although `EpisodesWatched ≤ TotalEpisodes`, and a
count whose hundredfold exceeds the `int` range wraps around to a negative progress. -/
theorem progress_bounds_counterexample :
    ((getAllSeries (updateHandler twoStore 1 (-5)).1).2.map
        fun s => (s.EpisodesWatched, s.TotalEpisodes, s.Progress))
      = [(-5, 50, -10), (60, 60, 100)] ∧
    ¬ (∀ s ∈ (getAllSeries (updateHandler twoStore 1 (-5)).1).2,
        s.EpisodesWatched ≤ s.TotalEpisodes → 0 ≤ s.Progress ∧ s.Progress ≤ 100) ∧
    ((getAllSeries hugeStore).2.map
        fun s => (s.EpisodesWatched, s.TotalEpisodes, s.Progress))
      = [(92233720368547759, 92233720368547759, -99)] := by
  refine ⟨by decide, by decide, by decide⟩

/-- C9, as the code has it: `calculateStats` on the listing returns the number of
records and the number of listed records whose progress is exactly 100, so
fullyWatched ≤ total; a record with `TotalEpisodes = 0` adds nothing to fullyWatched,
and a record with `EpisodesWatched = TotalEpisodes > 0` adds one provided
`TotalEpisodes * 100` fits Go's `int`. -/
theorem stats_contract (st : Store) :
    (calculateStats (getAllSeries st).2).1 = st.seriesDB.length ∧
    (calculateStats (getAllSeries st).2).2
      = ((getAllSeries st).2.filter (fun s => decide (s.Progress = 100))).length ∧
    (calculateStats (getAllSeries st).2).2 ≤ (calculateStats (getAllSeries st).2).1 ∧
    (∀ pre s post, st.seriesDB = pre ++ s :: post → s.TotalEpisodes = 0 →
      (calculateStats (getAllSeries st).2).2
        = (calculateStats (getAllSeries { st with seriesDB := pre ++ post }).2).2) ∧
    (∀ pre s post, st.seriesDB = pre ++ s :: post →
      s.EpisodesWatched = s.TotalEpisodes → 0 < s.TotalEpisodes →
      s.TotalEpisodes * 100 ≤ maxInt →
      (calculateStats (getAllSeries st).2).2
        = (calculateStats (getAllSeries { st with seriesDB := pre ++ post }).2).2 + 1) := by
  refine ⟨?_, ?_, ?_, ?_, ?_⟩
  · simp [calculateStats_eq, getAllSeries_eq_map]
  · simp [calculateStats_eq]
  · simp only [calculateStats_eq]
    exact List.length_filter_le _ _
  · intro pre s post hdb hte
    have hp : (withProgress s).Progress = 0 := by
      rw [withProgress_progress, if_neg (by omega)]
    simp [calculateStats_eq, getAllSeries_eq_map, hdb, List.filter_cons, hp]
  · intro pre s post hdb hw hte hfit
    have hp : (withProgress s).Progress = 100 := by
      rw [withProgress_progress, if_pos hte, hw]
      exact goProgress_full _ hte hfit
    simp [calculateStats_eq, getAllSeries_eq_map, hdb, List.filter_cons, hp]
    omega

/-- C9 at a two-record catalog with one fully watched record, and at a record without episodes. -/
theorem stats_contract_witness :
    calculateStats (getAllSeries twoStore).2 = (2, 1) ∧
      (calculateStats (getAllSeries twoStore).2).2
        = (calculateStats (getAllSeries
            { twoStore with seriesDB := [mkSeries 1 "tt0903747" 3 50] ++ [] }).2).2 + 1 ∧
      (calculateStats (getAllSeries
          (loadSeries (Snapshot.parsed [mkSeries 3 "tt0141842" 7 0]))).2).2
        = (calculateStats (getAllSeries
            { loadSeries (Snapshot.parsed [mkSeries 3 "tt0141842" 7 0]) with
              seriesDB := [] ++ [] }).2).2 :=
  ⟨by decide,
    (stats_contract twoStore).2.2.2.2 [mkSeries 1 "tt0903747" 3 50]
      (mkSeries 2 "tt0306414" 60 60) [] (by decide) (by decide) (by decide) (by decide),
    (stats_contract (loadSeries (Snapshot.parsed [mkSeries 3 "tt0141842" 7 0]))).2.2.2.1 []
      (mkSeries 3 "tt0141842" 7 0) [] (by decide) (by decide)⟩

/-- C9 as stated fails: a record with `EpisodesWatched = TotalEpisodes > 0` whose
hundredfold exceeds the `int` range is listed with progress -99 and is not counted as
fully watched. -/
theorem stats_contract_counterexample :
    (hugeStore.seriesDB.map fun s => (s.EpisodesWatched, s.TotalEpisodes))
      = [(92233720368547759, 92233720368547759)] ∧
    ((getAllSeries hugeStore).2.map fun s => s.Progress) = [-99] ∧
    calculateStats (getAllSeries hugeStore).2 = (1, 0) := by
  refine ⟨by decide, by decide, by decide⟩

/-- C7, as the code has it: for a catalog of N records and whatever page breaks gofpdf
adds on its own, the loop of `pdfHandler` opens ceil(N / 4) pages with a heading, exactly
one when N = 0; from each heading up to the next exactly 4 blocks are laid out, and
after the last heading N mod 4, or 4 when N is a nonzero multiple of 4; no page holds
more than 4 blocks; the blocks are the listed records in order; and the document has at
least ceil(N / 4) pages. When no automatic page break occurs, the pages with a heading
are all the pages: ceil(N / 4) of them, each but the last holding exactly 4 blocks and
the last N mod 4, or 4, and 9 records give pages of 4, 4 and 1 blocks. -/
theorem report_pagination (autoBreak : List Page → Series → Nat) (st : Store) :
    ((pdfHandler autoBreak st).filter fun page => page.heading.isSome).length
      = (if st.seriesDB.length = 0 then 1 else (st.seriesDB.length + 3) / 4) ∧
    groupCounts (pdfHandler autoBreak st)
      = List.replicate
          (((pdfHandler autoBreak st).filter fun page => page.heading.isSome).length - 1) 4 ++
          [if st.seriesDB.length ≠ 0 ∧ st.seriesDB.length % 4 = 0 then 4
           else st.seriesDB.length % 4] ∧
    (∀ page ∈ pdfHandler autoBreak st, page.blocks.length ≤ 4) ∧
    ((pdfHandler autoBreak st).map fun page => page.blocks).flatten = (getAllSeries st).2 ∧
    (if st.seriesDB.length = 0 then 1 else (st.seriesDB.length + 3) / 4)
      ≤ (pdfHandler autoBreak st).length ∧
    ((∀ pdf s, autoBreak pdf s = 0) →
      (pdfHandler autoBreak st).length
        = (if st.seriesDB.length = 0 then 1 else (st.seriesDB.length + 3) / 4) ∧
      (pdfHandler autoBreak st).map (fun page => page.blocks.length)
        = List.replicate ((pdfHandler autoBreak st).length - 1) 4 ++
            [if st.seriesDB.length ≠ 0 ∧ st.seriesDB.length % 4 = 0 then 4
             else st.seriesDB.length % 4] ∧
      (st.seriesDB.length = 9 →
        (pdfHandler autoBreak st).map (fun page => page.blocks.length) = [4, 4, 1])) := by
  obtain ⟨full, last, hgroups, hle, hpos, hsum, hexplicit, hpages, hflat, hnone⟩ :=
    pdfHandler_shape autoBreak st
  have hlast : last = (if st.seriesDB.length ≠ 0 ∧ st.seriesDB.length % 4 = 0 then 4
      else st.seriesDB.length % 4) := by
    split
    · omega
    · omega
  have hceil : full + 1 = (if st.seriesDB.length = 0 then 1 else (st.seriesDB.length + 3) / 4) := by
    split
    · omega
    · omega
  refine ⟨?_, ?_, hpages, hflat, ?_, ?_⟩
  · rw [hexplicit, hceil]
  · rw [hexplicit, ← hlast]
    simpa using hgroups
  · rw [← hceil, ← hexplicit]
    exact List.length_filter_le _ _
  · intro h0
    have hshape := hnone h0
    have hlen : (pdfHandler autoBreak st).length = full + 1 := by
      have := congrArg List.length hshape
      simpa using this
    refine ⟨by rw [hlen, hceil], ?_, ?_⟩
    · rw [hlen, ← hlast]
      simpa using hshape
    · intro h9
      have hfull : full = 2 := by omega
      have hl : last = 1 := by omega
      rw [hshape, hfull, hl]
      rfl

/-- C7 at the scenario of the specification: without automatic page breaks nine
records give pages of 4, 4 and 1 blocks. -/
theorem report_pagination_witness :
    (∀ pdf s, noAutoBreak pdf s = 0) ∧ nineStore.seriesDB.length = 9 ∧
      (pdfHandler noAutoBreak nineStore).map (fun page => page.blocks.length) = [4, 4, 1] :=
  ⟨fun _ _ => rfl, by decide,
    ((report_pagination noAutoBreak nineStore).2.2.2.2.2 (fun _ _ => rfl)).2.2 (by decide)⟩

/-- C7 as stated fails: when gofpdf breaks the page on its own before the text of a
fourth block, as it does once three blocks have filled the page, four records give two
pages holding 3 and 1 blocks, where ceil(4 / 4) is one page holding 4. -/
theorem report_pagination_counterexample :
    fourStore.seriesDB.length = 4 ∧
    (pdfHandler breakAfterThree fourStore).length = 2 ∧
    ((pdfHandler breakAfterThree fourStore).map fun page => page.blocks.length) = [3, 1] ∧
    ((pdfHandler breakAfterThree fourStore).map fun page => page.heading)
      = [some "Meine Serienliste", none] ∧
    (pdfHandler breakAfterThree fourStore).length ≠ (4 + 3) / 4 := by
  refine ⟨by decide, by decide, by decide, by decide, by decide⟩

/-- C8: for every store and every lookup function, a second run of
`updateMissingCovers` right after a first one changes nothing, records and save count
included, so the two runs together save at most once; a run saves exactly once when
some record's cover is patched and not at all otherwise, in which case the store is
unchanged; and when no record has a missing cover (empty or "N/A") together with a
non-empty IMDb id, the run does no lookup, no modification and no save. -/
theorem enrichment_idempotent (fetchIMDBData : String → Option OMDbResponse) (st : Store) :
    (updateMissingCovers fetchIMDBData (updateMissingCovers fetchIMDBData st).1).1
      = (updateMissingCovers fetchIMDBData st).1 ∧
    (updateMissingCovers fetchIMDBData (updateMissingCovers fetchIMDBData st).1).1.saves
      ≤ st.saves + 1 ∧
    ((∃ s ∈ st.seriesDB, (s.CoverURL = "" ∨ s.CoverURL = "N/A") ∧ s.IMDBID ≠ "" ∧
        ∃ data, fetchIMDBData s.IMDBID = some data ∧ data.Poster ≠ "" ∧ data.Poster ≠ "N/A") →
      (updateMissingCovers fetchIMDBData st).1.saves = st.saves + 1 ∧
      (updateMissingCovers fetchIMDBData st).1.seriesDB ≠ st.seriesDB) ∧
    ((¬ ∃ s ∈ st.seriesDB, (s.CoverURL = "" ∨ s.CoverURL = "N/A") ∧ s.IMDBID ≠ "" ∧
        ∃ data, fetchIMDBData s.IMDBID = some data ∧ data.Poster ≠ "" ∧ data.Poster ≠ "N/A") →
      (updateMissingCovers fetchIMDBData st).1 = st) ∧
    ((∀ s ∈ st.seriesDB, ¬ ((s.CoverURL = "" ∨ s.CoverURL = "N/A") ∧ s.IMDBID ≠ "")) →
      updateMissingCovers fetchIMDBData st = (st, [])) := by
  have hpatched : (∃ s ∈ st.seriesDB, (s.CoverURL = "" ∨ s.CoverURL = "N/A") ∧ s.IMDBID ≠ "" ∧
        ∃ data, fetchIMDBData s.IMDBID = some data ∧ data.Poster ≠ "" ∧ data.Poster ≠ "N/A")
      ↔ st.seriesDB.map (coverOf fetchIMDBData) ≠ st.seriesDB := by
    rw [← any_coverOf_ne, List.any_eq_true]
    constructor
    · rintro ⟨s, hs, h⟩
      exact ⟨s, hs, decide_eq_true ((coverOf_ne_iff fetchIMDBData s).mpr h)⟩
    · rintro ⟨s, hs, h⟩
      exact ⟨s, hs, (coverOf_ne_iff fetchIMDBData s).mp (of_decide_eq_true h)⟩
  have hsecond : (updateMissingCovers fetchIMDBData (updateMissingCovers fetchIMDBData st).1).1
      = (updateMissingCovers fetchIMDBData st).1 := by
    apply updateMissingCovers_unchanged
    rw [updateMissingCovers_seriesDB, List.map_map]
    apply List.map_congr_left
    intro s _
    exact coverOf_idem fetchIMDBData s
  have hfirst : (updateMissingCovers fetchIMDBData st).1.saves ≤ st.saves + 1 := by
    by_cases h : st.seriesDB.map (coverOf fetchIMDBData) = st.seriesDB
    · rw [updateMissingCovers_unchanged fetchIMDBData st h]
      omega
    · rw [updateMissingCovers_changed fetchIMDBData st h]
  refine ⟨hsecond, ?_, ?_, ?_, ?_⟩
  · rw [hsecond]
    exact hfirst
  · intro h
    have hne := hpatched.mp h
    exact ⟨updateMissingCovers_changed fetchIMDBData st hne, by
      rw [updateMissingCovers_seriesDB]; exact hne⟩
  · intro h
    apply updateMissingCovers_unchanged
    by_contra hne
    exact h (hpatched.mpr hne)
  · intro h
    have hno : ∀ s ∈ st.seriesDB, needsLookup s = false := by
      intro s hs
      have := h s hs
      simp only [needsLookup, decide_eq_false_iff_not]
      intro hn
      apply this
      refine ⟨?_, hn.2⟩
      by_cases h1 : s.CoverURL = ""
      · exact Or.inl h1
      · by_cases h2 : s.CoverURL = "N/A"
        · exact Or.inr h2
        · exact absurd ⟨h1, h2⟩ hn.1
    have hsame : st.seriesDB.map (coverOf fetchIMDBData) = st.seriesDB := by
      by_contra hne
      obtain ⟨s, hs, hm, hid, _⟩ := hpatched.mpr hne
      exact h s hs ⟨hm, hid⟩
    have hstore := updateMissingCovers_unchanged fetchIMDBData st hsame
    have hlook : (updateMissingCovers fetchIMDBData st).2 = [] := by
      rw [updateMissingCovers_eq]
      dsimp only
      have : st.seriesDB.filter needsLookup = [] := by
        rw [List.filter_eq_nil_iff]
        intro s hs
        rw [hno s hs]
        simp
      rw [this]
      rfl
    exact Prod.ext hstore hlook

/-- C8 at a catalog where one cover gets patched, with a lookup that always fails, on
the second run, and at a catalog with nothing to look up. -/
theorem enrichment_idempotent_witness :
    ((updateMissingCovers posterLookup twoStore).1.saves = twoStore.saves + 1 ∧
        (updateMissingCovers posterLookup twoStore).1.seriesDB ≠ twoStore.seriesDB) ∧
      (updateMissingCovers (fun _ => none) twoStore).1 = twoStore ∧
      updateMissingCovers posterLookup (updateMissingCovers posterLookup twoStore).1
        = ((updateMissingCovers posterLookup twoStore).1, ["tt0306414"]) ∧
      updateMissingCovers posterLookup
          (loadSeries (Snapshot.parsed [{ mkSeries 1 "tt0903747" 3 50 with CoverURL := "x.jpg" },
            mkSeries 2 "" 0 0]))
        = (loadSeries (Snapshot.parsed [{ mkSeries 1 "tt0903747" 3 50 with CoverURL := "x.jpg" },
            mkSeries 2 "" 0 0]), []) :=
  ⟨(enrichment_idempotent posterLookup twoStore).2.2.1
      ⟨mkSeries 1 "tt0903747" 3 50, by decide, Or.inl (by decide), by decide,
        { breakingBad with Poster := "https://img.example/bb.jpg" }, by decide, by decide,
        by decide⟩,
    (enrichment_idempotent (fun _ => none) twoStore).2.2.2.1 (by
      rintro ⟨_, _, _, _, _, hd, _⟩
      cases hd),
    by decide,
    (enrichment_idempotent posterLookup
      (loadSeries (Snapshot.parsed [{ mkSeries 1 "tt0903747" 3 50 with CoverURL := "x.jpg" },
        mkSeries 2 "" 0 0]))).2.2.2.2 (by decide)⟩

/-- C2, as the code has it: `loadSeries` leaves `nextID` at least 1 and above every
loaded id, and, as long as the loaded ids are below the largest `int` and `nextID` can
be advanced once per add request without leaving the `int` range, each successful add
hands out an id strictly greater than those of all earlier successful adds and
different from the id of every record that was in the catalog at any earlier moment;
and if the loaded ids are pairwise distinct, so are the ids of the live records after
every prefix of the request sequence. -/
theorem ids_increasing_never_reused (snapshot : Snapshot) (ops : List Op)
    (hload : ∀ s ∈ (loadSeries snapshot).seriesDB, s.ID < maxInt)
    (hadds : (loadSeries snapshot).nextID + (countAdds ops : Int) ≤ maxInt) :
    (1 ≤ (loadSeries snapshot).nextID ∧
      ∀ s ∈ (loadSeries snapshot).seriesDB, s.ID < (loadSeries snapshot).nextID) ∧
    List.Pairwise (fun a b : Int => a < b) (assignedIds (loadSeries snapshot) ops) ∧
    (∀ pre op post i, ops = pre ++ op :: post →
      (applyOp (runOps (loadSeries snapshot) pre) op).2 = Response.added i →
      ∀ p, p <+: pre → ∀ s ∈ (runOps (loadSeries snapshot) p).seriesDB, s.ID ≠ i) ∧
    (((loadSeries snapshot).seriesDB.map fun s => s.ID).Nodup →
      ∀ p, p <+: ops → ((runOps (loadSeries snapshot) p).seriesDB.map fun s => s.ID).Nodup) := by
  obtain ⟨h1, h2, h3⟩ := loadSeries_inv snapshot hload
  have hinv : IdsBelowNext (loadSeries snapshot) (countAdds ops) :=
    ⟨by unfold minInt; omega, hadds, h3⟩
  obtain ⟨_, hpw, hpre⟩ := runOps_inv ops (loadSeries snapshot) hinv
  refine ⟨⟨h1, h3⟩, hpw, ?_, ?_⟩
  · intro pre op post i hops hadd p hp s hs
    obtain ⟨q, hq⟩ := hp
    have hsplit : ops = p ++ (q ++ op :: post) := by
      rw [hops, ← hq, List.append_assoc]
    obtain ⟨hinvp, _, _⟩ := hpre p (q ++ op :: post) hsplit
    have hbelow := hinvp.2.2
    obtain ⟨_, _, hpre2⟩ := runOps_inv (q ++ op :: post) (runOps (loadSeries snapshot) p) hinvp
    obtain ⟨hinvq, hmono, _⟩ := hpre2 q (op :: post) rfl
    obtain ⟨_, _, hresp, _⟩ := applyOp_inv _ op post hinvq
    rw [← runOps_append, hq] at hresp hmono
    have hi := (hresp i hadd).1
    have := hbelow s hs
    omega
  · intro hnd p hp
    obtain ⟨q, hq⟩ := hp
    exact (hpre p q hq.symm).2.2 hnd

/-- C2 at a two-record snapshot followed by five requests, two of which are successful adds. -/
theorem ids_increasing_never_reused_witness :
    (∀ s ∈ (loadSeries (Snapshot.parsed twoStore.seriesDB)).seriesDB, s.ID < maxInt) ∧
      (loadSeries (Snapshot.parsed twoStore.seriesDB)).nextID + (countAdds sampleOps : Int)
        ≤ maxInt ∧
      assignedIds (loadSeries (Snapshot.parsed twoStore.seriesDB)) sampleOps = [3, 4] ∧
      List.Pairwise (fun a b : Int => a < b)
        (assignedIds (loadSeries (Snapshot.parsed twoStore.seriesDB)) sampleOps) :=
  ⟨by decide, by decide, by decide,
    (ids_increasing_never_reused (Snapshot.parsed twoStore.seriesDB) sampleOps
      (by decide) (by decide)).2.1⟩

/-- C2 as stated fails at the end of the `int` range: after loading a record with id
9223372036854775806 two adds hand out 9223372036854775807 and then
-9223372036854775808, which is not greater; and after loading records with the
smallest and the largest `int` as ids, which are distinct, one add makes two live
records share the id -9223372036854775808. -/
theorem ids_increasing_never_reused_counterexample :
    (loadSeries lastIdSnapshot).nextID = 9223372036854775807 ∧
    assignedIds (loadSeries lastIdSnapshot) [Op.add theWire, Op.add sopranos]
      = [9223372036854775807, -9223372036854775808] ∧
    ¬ List.Pairwise (fun a b : Int => a < b)
      (assignedIds (loadSeries lastIdSnapshot) [Op.add theWire, Op.add sopranos]) ∧
    ((loadSeries extremeIdSnapshot).seriesDB.map fun s => s.ID).Nodup ∧
    ((runOps (loadSeries extremeIdSnapshot) [Op.add sopranos]).seriesDB.map fun s => s.ID)
      = [-9223372036854775808, 9223372036854775807, -9223372036854775808] ∧
    ¬ ((runOps (loadSeries extremeIdSnapshot) [Op.add sopranos]).seriesDB.map
      fun s => s.ID).Nodup := by
  refine ⟨by decide, by decide, by decide, by decide, by decide, by decide⟩

end SerienTracker
